import Mathlib

/-!
# Verification of the EDGE growth station-disaggregation and growth-factor infill core

Shallow embedding of the functions in
`normits_demand/models/forecasting/EDGE_growth/utils.py` and
`normits_demand/models/forecasting/EDGE_growth/growth_matrices.py`.

Tabular data (pandas DataFrames) is embedded as lists of records; numpy / pandas
floating-point values are embedded as `FloatVal` — an exact-rational carrier
extended with the IEEE special values NaN, +inf and -inf, which the pipeline can
produce (NaN from unmatched left-joins and 0/0, infinities from x/0).  All
arithmetic that the modelled code performs on these values (addition in
`groupby(...).sum()`, multiplication for scaling, division for proportions) is
defined with the IEEE/pandas rules: NaN propagates, `sum` skips NaN, `fillna(0)`
replaces NaN (and only NaN) by 0.
-/

/-- A pandas/numpy float value: an exact rational, or one of the IEEE special
values NaN, +infinity, -infinity. -/
inductive FloatVal where
  | nan : FloatVal
  | pinf : FloatVal
  | ninf : FloatVal
  | fin : ℚ → FloatVal
deriving DecidableEq, Repr

namespace FloatVal

/-- IEEE addition (as used by pandas when accumulating sums). -/
def add : FloatVal → FloatVal → FloatVal
  | nan, _ => nan
  | _, nan => nan
  | pinf, ninf => nan
  | ninf, pinf => nan
  | pinf, _ => pinf
  | _, pinf => pinf
  | ninf, _ => ninf
  | _, ninf => ninf
  | fin a, fin b => fin (a + b)

/-- IEEE division: x/0 is NaN when x = 0 and a signed infinity otherwise;
NaN propagates; finite/infinite = 0. -/
def div : FloatVal → FloatVal → FloatVal
  | nan, _ => nan
  | _, nan => nan
  | pinf, pinf => nan
  | pinf, ninf => nan
  | ninf, pinf => nan
  | ninf, ninf => nan
  | pinf, fin b => if 0 ≤ b then pinf else ninf
  | ninf, fin b => if 0 ≤ b then ninf else pinf
  | fin _, pinf => fin 0
  | fin _, ninf => fin 0
  | fin a, fin b =>
      if b = 0 then (if a = 0 then nan else if 0 < a then pinf else ninf)
      else fin (a / b)

/-- `fillna(0)`: replace NaN (and only NaN) by exact 0. -/
def fillna0 : FloatVal → FloatVal
  | nan => fin 0
  | v => v

/-- A value is finite when it is neither NaN nor an infinity. -/
def isFin : FloatVal → Prop
  | fin _ => True
  | _ => False

instance : DecidablePred isFin := by
  intro v
  cases v <;> simp [isFin] <;> infer_instance

end FloatVal

/-- pandas `sum()` over a float column: NaN entries are skipped (`skipna`),
the rest are accumulated with IEEE addition starting from 0. -/
def floatSum (l : List FloatVal) : FloatVal :=
  l.foldl (fun acc v => if v = FloatVal.nan then acc else acc.add v) (FloatVal.fin 0)

theorem floatSum_fins_aux (q : ℚ) (l : List ℚ) :
    (l.map FloatVal.fin).foldl
      (fun acc v => if v = FloatVal.nan then acc else acc.add v)
      (FloatVal.fin q) = FloatVal.fin (q + l.sum) := by
  induction l generalizing q with
  | nil => simp
  | cons a t ih =>
      simp only [List.map_cons, List.foldl_cons]
      rw [if_neg (by simp), show (FloatVal.fin q).add (FloatVal.fin a) = FloatVal.fin (q + a)
        from rfl, ih]
      rw [List.sum_cons]
      ring_nf

/-- On a list of finite values, the pandas sum is the exact rational sum. -/
theorem floatSum_map_fin (l : List ℚ) : floatSum (l.map FloatVal.fin) = FloatVal.fin l.sum := by
  have h := floatSum_fins_aux 0 l
  simpa [floatSum] using h

/-- `unique()` in pandas: the distinct values of a column in order of first
appearance. -/
def uniqueList {α : Type} [DecidableEq α] : List α → List α
  | [] => []
  | a :: rest => a :: uniqueList (rest.filter (fun x => x ≠ a))
termination_by l => l.length
decreasing_by
  simp only [List.length_cons]
  exact Nat.lt_succ_of_le (List.length_filter_le _ _)

theorem mem_uniqueList {α : Type} [DecidableEq α] (l : List α) (a : α) :
    a ∈ uniqueList l ↔ a ∈ l := by
  induction l using uniqueList.induct with
  | case1 => simp [uniqueList]
  | case2 b rest ih =>
      rw [uniqueList]
      by_cases hab : a = b
      · subst hab; simp
      · simp only [List.mem_cons, ih, List.mem_filter]
        constructor
        · rintro (h | ⟨h, _⟩)
          · exact (hab h).elim
          · exact Or.inr h
        · rintro (h | h)
          · exact (hab h).elim
          · refine Or.inr ⟨h, ?_⟩
            simpa using hab

theorem nodup_uniqueList {α : Type} [DecidableEq α] (l : List α) : (uniqueList l).Nodup := by
  induction l using uniqueList.induct with
  | case1 => simp [uniqueList]
  | case2 b rest ih =>
      rw [uniqueList]
      refine List.Nodup.cons ?_ ih
      intro hmem
      rw [mem_uniqueList] at hmem
      have h2 := (List.mem_filter.mp hmem).2
      simp at h2

/-- Sorted distinct values of an integer column (the row/column axis that
`pandas.pivot_table` derives, and the group keys of `groupby(...).sum()`,
both of which sort the unique keys ascending). -/
def sortedKeysZ (l : List ℤ) : List ℤ :=
  List.insertionSort (fun a b => a ≤ b) l.dedup

/-- Lexicographic order on integer pairs, the order `groupby` uses for a
two-column key. -/
def pairLE (a b : ℤ × ℤ) : Prop :=
  a.1 < b.1 ∨ (a.1 = b.1 ∧ a.2 ≤ b.2)

instance : DecidableRel pairLE := by
  intro a b
  unfold pairLE
  infer_instance

/-- Sorted distinct two-column group keys. -/
def sortedKeysP (l : List (ℤ × ℤ)) : List (ℤ × ℤ) :=
  List.insertionSort pairLE l.dedup

theorem nodup_sortedKeysZ (l : List ℤ) : (sortedKeysZ l).Nodup :=
  (List.perm_insertionSort _ _).nodup_iff.mpr (List.nodup_dedup l)

theorem mem_sortedKeysZ (l : List ℤ) (a : ℤ) : a ∈ sortedKeysZ l ↔ a ∈ l := by
  rw [sortedKeysZ, (List.perm_insertionSort _ _).mem_iff, List.mem_dedup]

theorem nodup_sortedKeysP (l : List (ℤ × ℤ)) : (sortedKeysP l).Nodup :=
  (List.perm_insertionSort _ _).nodup_iff.mpr (List.nodup_dedup l)

theorem mem_sortedKeysP (l : List (ℤ × ℤ)) (a : ℤ × ℤ) : a ∈ sortedKeysP l ↔ a ∈ l := by
  rw [sortedKeysP, (List.perm_insertionSort _ _).mem_iff, List.mem_dedup]

/-- Sum of all entries of a dense matrix (pandas `.values.sum()`). -/
def floatTotal (m : List (List FloatVal)) : FloatVal :=
  floatSum m.flatten

/-- Splitting a sum over a list by a Boolean predicate. -/
theorem sum_map_filter_split {α : Type} (p : α → Bool) (l : List α) (v : α → ℚ) :
    (l.map v).sum
      = ((l.filter p).map v).sum + ((l.filter fun a => ! p a).map v).sum := by
  induction l with
  | nil => simp
  | cons a t ih =>
      by_cases hp : p a
      · simp only [List.filter_cons, hp, List.map_cons, List.sum_cons, ih]
        simp [hp]
        ring
      · simp only [List.filter_cons, List.map_cons, List.sum_cons, ih]
        simp [hp]
        ring

/-- Partitioning a sum by a key: if `ks` lists every key of `l` without
repetition, then summing the per-key filtered sums gives the total sum. -/
theorem sum_keys_filter {κ α : Type} [DecidableEq κ] (ks : List κ) (l : List α)
    (key : α → κ) (v : α → ℚ) (hnd : ks.Nodup) (hcov : ∀ a ∈ l, key a ∈ ks) :
    (ks.map fun k => ((l.filter fun a => key a = k).map v).sum).sum = (l.map v).sum := by
  induction ks generalizing l with
  | nil =>
      cases l with
      | nil => simp
      | cons a t => exact absurd (hcov a (by simp)) (by simp)
  | cons k ks2 ih =>
      have hk2 : k ∉ ks2 := (List.nodup_cons.mp hnd).1
      have hnd2 : ks2.Nodup := (List.nodup_cons.mp hnd).2
      simp only [List.map_cons, List.sum_cons]
      have hrest : ∀ k2 ∈ ks2,
          ((l.filter fun a => key a = k2).map v).sum
            = (((l.filter fun a => ! (key a = k)).filter fun a => key a = k2).map v).sum := by
        intro k2 hk2mem
        have hk2ne : k2 ≠ k := fun h => hk2 (h ▸ hk2mem)
        rw [List.filter_filter]
        have heq : (List.filter (fun a => decide (key a = k2) && ! decide (key a = k)) l)
            = List.filter (fun a => decide (key a = k2)) l := by
          apply List.filter_congr
          intro x _
          by_cases hx : key x = k2
          · have hxk : ¬ (key x = k) := fun h => hk2ne (by rw [← hx, h])
            simp [hx, hxk, hk2ne]
          · simp [hx]
        rw [heq]
      rw [List.map_congr_left hrest]
      have hcov2 : ∀ a ∈ (l.filter fun a => ! (key a = k)), key a ∈ ks2 := by
        intro a ha
        rcases List.mem_filter.mp ha with ⟨hal, hne⟩
        rcases List.mem_cons.mp (hcov a hal) with h | h
        · simp [h] at hne
        · exact h
      rw [ih (l.filter fun a => ! (key a = k)) hnd2 hcov2]
      exact (sum_map_filter_split (fun a => key a = k) l v).symm

/-- `range(1, zones + 1)` as 1-based integer identifiers. -/
def idRange (zones : ℕ) : List ℤ :=
  (List.range zones).map fun i : ℕ => ((i : ℤ) + 1)

/-- `itertools.product(range(1, zones + 1), range(1, zones + 1))`: the full
cross product of 1-based identifiers, in row-major order. -/
def gridPairs (zones : ℕ) : List (ℤ × ℤ) :=
  idRange zones ×ˢ idRange zones

theorem nodup_idRange (zones : ℕ) : (idRange zones).Nodup := by
  refine List.Nodup.map ?_ (List.nodup_range zones)
  intro a b hab
  simp only at hab
  omega

theorem nodup_gridPairs (zones : ℕ) : (gridPairs zones).Nodup :=
  List.Nodup.product (nodup_idRange zones) (nodup_idRange zones)

theorem mem_idRange (zones : ℕ) (a : ℤ) :
    a ∈ idRange zones ↔ 1 ≤ a ∧ a ≤ zones := by
  simp only [idRange, List.mem_map, List.mem_range]
  constructor
  · rintro ⟨i, hi, rfl⟩
    omega
  · intro h
    refine ⟨(a - 1).toNat, by omega, by omega⟩

theorem mem_gridPairs (zones : ℕ) (p : ℤ × ℤ) :
    p ∈ gridPairs zones ↔ 1 ≤ p.1 ∧ p.1 ≤ zones ∧ 1 ≤ p.2 ∧ p.2 ≤ zones := by
  obtain ⟨a, b⟩ := p
  have h := @List.pair_mem_product ℤ ℤ (idRange zones) (idRange zones) a b
  constructor
  · intro hm
    have h2 := h.mp hm
    rw [mem_idRange, mem_idRange] at h2
    exact ⟨h2.1.1, h2.1.2, h2.2.1, h2.2.2⟩
  · intro hm
    apply h.mpr
    rw [mem_idRange, mem_idRange]
    exact ⟨⟨hm.1, hm.2.1⟩, hm.2.2.1, hm.2.2.2⟩

/-- One row of a long-form zonal demand matrix: columns
`from_model_zone_id`, `to_model_zone_id`, `Demand`. -/
structure DemandRow where
  fromZone : ℤ
  toZone : ℤ
  demand : ℚ
deriving DecidableEq, Repr

/-- The `(from_model_zone_id, to_model_zone_id)` key pair of a row. -/
def demandKey (r : DemandRow) : ℤ × ℤ := (r.fromZone, r.toZone)

/-- `transpose_matrix`: swaps the origin/destination column roles by
renaming `from_model_zone_id` and `to_model_zone_id`. -/
def transpose_matrix (mx : List DemandRow) : List DemandRow :=
  mx.map fun r => ⟨r.toZone, r.fromZone, r.demand⟩

/-- `expand_matrix` at its zonal call sites: builds the full
`zones × zones` grid of identifier pairs, merges the input on
`(from_model_zone_id, to_model_zone_id)` with `how="outer"` (grid rows with
matching input rows take every match; grid rows with none keep a NaN value
cell; input rows whose key pair is outside the grid are appended), and
applies `fillna(0)`, which turns the grid-only NaN demand cells into 0. -/
def expand_matrix (mx : List DemandRow) (zones : ℕ) : List DemandRow :=
  ((gridPairs zones).flatMap fun p =>
    let ms := mx.filter fun r => demandKey r = p
    if ms.isEmpty then [⟨p.1, p.2, 0⟩] else ms)
  ++ mx.filter fun r => ¬ demandKey r ∈ gridPairs zones

/-- Total demand of a long-form matrix. -/
def demandTotal (l : List DemandRow) : ℚ := (l.map fun r => r.demand).sum

theorem sum_if_empty_zero {α : Type} (ms : List α) (z : α) (v : α → ℚ) (hz : v z = 0) :
    ((if ms.isEmpty then [z] else ms).map v).sum = (ms.map v).sum := by
  cases ms <;> simp [hz]

theorem sum_map_flatMap {α β : Type} (l : List α) (f : α → List β) (v : β → ℚ) :
    ((l.flatMap f).map v).sum = (l.map fun a => ((f a).map v).sum).sum := by
  induction l with
  | nil => simp
  | cons a t ih => simp [List.flatMap_cons, List.map_append, List.sum_append, ih]

/-- The outer merge of `expand_matrix` conserves total demand: grid rows
with no match contribute exact zeros and every input row is retained. -/
theorem demandTotal_expand (mx : List DemandRow) (zones : ℕ) :
    demandTotal (expand_matrix mx zones) = demandTotal mx := by
  unfold demandTotal expand_matrix
  rw [List.map_append, List.sum_append, sum_map_flatMap]
  have h1 : ((gridPairs zones).map fun p =>
        (((if (mx.filter fun r => demandKey r = p).isEmpty
            then [(⟨p.1, p.2, 0⟩ : DemandRow)]
            else mx.filter fun r => demandKey r = p)).map fun r => r.demand).sum).sum
      = ((gridPairs zones).map fun p =>
        (((mx.filter fun r => demandKey r ∈ gridPairs zones).filter
            fun r => demandKey r = p).map fun r => r.demand).sum).sum := by
    apply congrArg
    apply List.map_congr_left
    intro p hp
    rw [sum_if_empty_zero (mx.filter fun r => demandKey r = p)
      (⟨p.1, p.2, 0⟩ : DemandRow) (fun r => r.demand) rfl]
    apply congrArg
    apply congrArg
    rw [List.filter_filter]
    apply List.filter_congr
    intro x _
    by_cases hx : demandKey x = p
    · have hxg : demandKey x ∈ gridPairs zones := hx ▸ hp
      simp [hx, hxg, hp]
    · simp [hx]
  rw [h1, sum_keys_filter (gridPairs zones) _ demandKey (fun r => r.demand)
    (nodup_gridPairs zones) (fun a ha => of_decide_eq_true (List.mem_filter.mp ha).2)]
  have hsplit := sum_map_filter_split (fun r => demandKey r ∈ gridPairs zones) mx
    (fun r => r.demand)
  rw [hsplit]
  congr 1
  apply congrArg
  apply congrArg
  apply List.filter_congr
  intro x _
  simp

/-- The default `pivot_table` aggregation: arithmetic mean.  pandas computes
it over the non-NaN values of the group (callers pass the pre-filtered
list). -/
def floatMean (vs : List FloatVal) : FloatVal :=
  FloatVal.div (floatSum vs) (FloatVal.fin (vs.length : ℚ))

/-- The cell of `pivot_table(index=row, columns=col, values=value)` at axis
position `(r, c)`: the mean of the non-NaN values whose keys are `(r, c)`,
or NaN when there are none (a hole in the pivoted grid). -/
def pivotCell (l : List (ℤ × ℤ × FloatVal)) (r c : ℤ) : FloatVal :=
  let vs := ((l.filter fun t => t.1 = r ∧ t.2.1 = c).map fun t => t.2.2).filter
    fun v => ¬ v = FloatVal.nan
  if vs.isEmpty then FloatVal.nan else floatMean vs

/-- `pivot_table`'s `dropna=True`: columns whose entries are all NaN are not
included in the result. -/
def dropNaNCols (m : List (List FloatVal)) : List (List FloatVal) :=
  let width := ((m.head?).map List.length).getD 0
  let keep := (List.range width).filter fun j =>
    m.any fun row => ¬ row.getD j FloatVal.nan = FloatVal.nan
  m.map fun row => keep.map fun j => row.getD j FloatVal.nan

/-- `long_mx_2_wide_mx`: `mx_df.pivot_table(index=row, columns=col,
values=value).values` with the first three columns as defaults.  The row and
column axes are the sorted distinct key values; each cell is the mean of the
matching values (the silent aggregation of pandas' default `aggfunc`); absent
combinations give NaN and all-NaN columns are dropped (`dropna=True`). -/
def long_mx_2_wide_mx (l : List (ℤ × ℤ × FloatVal)) : List (List FloatVal) :=
  let rks := sortedKeysZ (l.map fun t => t.1)
  let cks := sortedKeysZ (l.map fun t => t.2.1)
  dropNaNCols (rks.map fun r => cks.map fun c => pivotCell l r c)

theorem getD_map_range {α : Type} (row : List α) (d : α) :
    ((List.range row.length).map fun j => row.getD j d) = row := by
  apply List.ext_getElem
  · simp
  · intro i h1 h2
    simp only [List.getElem_map, List.getElem_range]
    exact List.getD_eq_getElem row d h2

/-- When no cell of a rectangular matrix is NaN, `dropna=True` keeps every
column. -/
theorem dropNaNCols_of_no_nan (m : List (List FloatVal)) (w : ℕ)
    (hw : ∀ row ∈ m, row.length = w)
    (hnn : ∀ row ∈ m, ∀ v ∈ row, ¬ v = FloatVal.nan) :
    dropNaNCols m = m := by
  unfold dropNaNCols
  dsimp only
  cases m with
  | nil => simp
  | cons r0 rest =>
      have hr0 : r0.length = w := hw r0 (by simp)
      have hwidth : ((Option.map List.length ((r0 :: rest).head?)).getD 0) = w := by
        simp [hr0]
      rw [hwidth]
      have hkeep : ((List.range w).filter
          fun j => (r0 :: rest).any fun row => ¬ row.getD j FloatVal.nan = FloatVal.nan)
          = List.range w := by
        apply List.filter_eq_self.mpr
        intro j hj
        rw [List.mem_range] at hj
        have hjlt : j < r0.length := by omega
        have hjr : r0.getD j FloatVal.nan ∈ r0 := by
          rw [List.getD_eq_getElem r0 FloatVal.nan hjlt]
          exact List.getElem_mem hjlt
        have hnn0 := hnn r0 (by simp) _ hjr
        simp only [List.any_cons, List.any_eq_true, Bool.or_eq_true, decide_eq_true_eq]
        exact Or.inl hnn0
      rw [hkeep]
      have hmap : ∀ row ∈ r0 :: rest,
          ((List.range w).map fun j => row.getD j FloatVal.nan) = id row := by
        intro row hrow
        have hwr : w = row.length := (hw row hrow).symm
        rw [hwr]
        exact getD_map_range row FloatVal.nan
      rw [List.map_congr_left hmap, List.map_id]

/-- One row of the station lookup: columns `STATIONCODE`, `stn_zone_id`
(the lookup's other columns play no role in the modelled functions). -/
structure StationRow where
  stationCode : String
  stnZoneId : ℤ
deriving DecidableEq, Repr

/-- One row of the EDGE growth-factor records: columns `ZoneCodeFrom`,
`ZoneCodeTo`, `purpose`, `TicketType`, `Demand_rate`.  The record type is
total: C8's "input table with no missing values" is structural here. -/
structure FactorRow where
  zoneCodeFrom : String
  zoneCodeTo : String
  purpose : ℤ
  ticketType : String
  demandRate : ℚ
deriving DecidableEq, Repr

/-- An output row of `merge_to_stations`: the original columns, the resolved
`from_stn_zone_id` / `to_stn_zone_id`, and `Demand_rate` renamed `Demand`. -/
structure StnFactorRow where
  zoneCodeFrom : String
  zoneCodeTo : String
  purpose : ℤ
  ticketType : String
  demand : ℚ
  from_stn_zone_id : ℤ
  to_stn_zone_id : ℤ
deriving DecidableEq, Repr

/-- The first `df.merge(stations_lookup, how="right", left_on=[left_from],
right_on=["STATIONCODE"])`: every lookup row appears; a lookup row matched by
input rows is paired with each of them, an unmatched one carries NaN in all
the input's columns (`none`); input rows whose code is not a station code are
dropped (right-join semantics). -/
def mergeFromStations (stations_lookup : List StationRow) (df : List FactorRow) :
    List (Option FactorRow × StationRow) :=
  stations_lookup.flatMap fun s =>
    let ms := df.filter fun d => d.zoneCodeFrom = s.stationCode
    if ms.isEmpty then [(none, s)] else ms.map fun d => (some d, s)

/-- The second right-merge, on the destination code.  Left rows whose
`ZoneCodeTo` is NaN (the lookup-only rows of the first merge) match no
station code and are dropped by the right join. -/
def mergeToStationsSecond (stations_lookup : List StationRow)
    (m1 : List (Option FactorRow × StationRow)) :
    List (Option (Option FactorRow × StationRow) × StationRow) :=
  stations_lookup.flatMap fun s =>
    let ms := m1.filter fun r => (r.1.map fun d => d.zoneCodeTo) = some s.stationCode
    if ms.isEmpty then [(none, s)] else ms.map fun r => (some r, s)

/-- `merge_to_stations`: two right-joins onto the station lookup (origin code
then destination code), `dropna(axis=0)` (which removes precisely the rows
with NaN input columns, i.e. the lookup-only rows, since the input table has
no missing values), and the renames to `from_stn_zone_id` / `to_stn_zone_id`
/ `Demand`. -/
def merge_to_stations (stations_lookup : List StationRow) (df : List FactorRow) :
    List StnFactorRow :=
  (mergeToStationsSecond stations_lookup (mergeFromStations stations_lookup df)).filterMap
    fun r => match r with
      | (some (some d, s1), s2) =>
          some ⟨d.zoneCodeFrom, d.zoneCodeTo, d.purpose, d.ticketType, d.demandRate,
            s1.stnZoneId, s2.stnZoneId⟩
      | _ => none

theorem mem_mergeFromStations (stations_lookup : List StationRow) (df : List FactorRow)
    (r : Option FactorRow × StationRow) (hr : r ∈ mergeFromStations stations_lookup df) :
    r.2 ∈ stations_lookup ∧ ∀ d, r.1 = some d → d ∈ df ∧ d.zoneCodeFrom = r.2.stationCode := by
  rcases List.mem_flatMap.mp hr with ⟨s, hs, hrin⟩
  dsimp only at hrin
  split at hrin
  · rcases List.mem_singleton.mp hrin with rfl
    exact ⟨hs, by intro d hd; exact absurd hd (by simp)⟩
  · rcases List.mem_map.mp hrin with ⟨d, hd, rfl⟩
    rcases List.mem_filter.mp hd with ⟨hddf, hdc⟩
    refine ⟨hs, ?_⟩
    intro d2 hd2
    rcases Option.some_inj.mp hd2 with rfl
    exact ⟨hddf, of_decide_eq_true hdc⟩

/-- Every row `merge_to_stations` outputs takes both its resolved station
identifiers from the lookup. -/
theorem merge_to_stations_ids (stations_lookup : List StationRow) (df : List FactorRow)
    (r : StnFactorRow) (hr : r ∈ merge_to_stations stations_lookup df) :
    (∃ s1 ∈ stations_lookup, r.from_stn_zone_id = s1.stnZoneId) ∧
    (∃ s2 ∈ stations_lookup, r.to_stn_zone_id = s2.stnZoneId) ∧
    (∃ d ∈ df, r.zoneCodeFrom = d.zoneCodeFrom ∧ r.zoneCodeTo = d.zoneCodeTo ∧
      r.purpose = d.purpose ∧ r.ticketType = d.ticketType ∧ r.demand = d.demandRate) := by
  rcases List.mem_filterMap.mp hr with ⟨x, hx, hmk⟩
  rcases List.mem_flatMap.mp hx with ⟨s2, hs2, hxin⟩
  dsimp only at hxin
  split at hxin
  · rcases List.mem_singleton.mp hxin with rfl
    simp at hmk
  · rcases List.mem_map.mp hxin with ⟨r1, hr1, rfl⟩
    rcases List.mem_filter.mp hr1 with ⟨hr1m, _⟩
    obtain ⟨o, s1⟩ := r1
    cases o with
    | none => simp at hmk
    | some d =>
        have hmk2 : r = ⟨d.zoneCodeFrom, d.zoneCodeTo, d.purpose, d.ticketType,
            d.demandRate, s1.stnZoneId, s2.stnZoneId⟩ := by
          simpa using hmk.symm
        subst hmk2
        have h1 := mem_mergeFromStations stations_lookup df (some d, s1) hr1m
        refine ⟨⟨s1, h1.1, rfl⟩, ⟨s2, hs2, rfl⟩, ⟨d, (h1.2 d rfl).1, rfl, rfl, rfl, rfl, rfl⟩⟩

/-- A dense numpy matrix of float growth factors. -/
abbrev Mat := List (List FloatVal)

/-- The station key columns of a long station-level table (which, after a
left merge, can hold NaN = `none`). -/
def stnKey (t : Option ℤ × Option ℤ × FloatVal) : Option ℤ × Option ℤ := (t.1, t.2.1)

/-- `expand_matrix` at its station call sites (`stations=True`): the key
columns of the input can be NaN (`none`) after an unresolved left merge, so
the trailing `fillna(0)` also turns those keys into the sentinel 0.  Grid
pairs with matches keep every match, grid pairs without get demand 0, and
input rows whose (possibly NaN) key pair is not a grid pair are appended by
the outer merge with keys and value filled by `fillna(0)`. -/
def expand_matrix_stn (tr : List (Option ℤ × Option ℤ × FloatVal)) (zones : ℕ) :
    List (ℤ × ℤ × FloatVal) :=
  ((gridPairs zones).flatMap fun p =>
    let ms := tr.filter fun t => t.1 = some p.1 ∧ t.2.1 = some p.2
    if ms.isEmpty then [(p.1, p.2, FloatVal.fin 0)]
    else ms.map fun t => (p.1, p.2, t.2.2.fillna0))
  ++ ((tr.filter fun t =>
      ¬ ∃ p ∈ gridPairs zones, t.1 = some p.1 ∧ t.2.1 = some p.2).map
    fun t => ((t.1).getD 0, (t.2.1).getD 0, t.2.2.fillna0))

/-- One row of the demand-segments table: only its `Purpose` column is read. -/
structure SegRow where
  purpose : ℤ
deriving DecidableEq, Repr

/-- `prepare_growth_matrices`: enumerate purposes from the demand segments
and ticket types from the factor records, resolve the records' station codes,
and for each (purpose, ticket type) filter, expand to the full
station-by-station grid and pivot to a dense matrix. -/
def prepare_growth_matrices (demand_segments : List SegRow) (factors : List FactorRow)
    (stations_lookup : List StationRow) : List (ℤ × List (String × Mat)) :=
  let purposes := uniqueList (demand_segments.map fun r => r.purpose)
  let ticket_types := uniqueList (factors.map fun r => r.ticketType)
  let factors_df := merge_to_stations stations_lookup factors
  purposes.map fun p =>
    (p, ticket_types.map fun t =>
      (t, long_mx_2_wide_mx (expand_matrix_stn
        ((factors_df.filter fun r => r.purpose = p ∧ r.ticketType = t).map
          fun r => (some r.from_stn_zone_id, some r.to_stn_zone_id, FloatVal.fin r.demand))
        stations_lookup.length)))

/-- Python `dict[key]` access: `some` value or a KeyError (`none`). -/
def lookupKey {α β : Type} [DecidableEq α] (k : α) (d : List (α × β)) : Option β :=
  (d.find? fun e => e.1 = k).map fun e => e.2

/-- `np.where(x == 0, y, x)` elementwise on same-shaped matrices.  A NaN cell
compares unequal to 0 and is therefore kept from `x`. -/
def whereZero (x y : Mat) : Mat :=
  List.zipWith (fun xr yr => List.zipWith
    (fun a b => if a = FloatVal.fin 0 then b else a) xr yr) x y

/-- `np.where(x == 0, 1, x)`: the final scalar default. -/
def whereZeroOne (x : Mat) : Mat :=
  x.map fun xr => xr.map fun a => if a = FloatVal.fin 0 then FloatVal.fin 1 else a

/-- `np.argwhere(x == 0)`: row-major coordinates of the cells equal to 0. -/
def argwhereZero (x : Mat) : List (ℕ × ℕ) :=
  x.enum.flatMap fun ir =>
    ir.2.enum.filterMap fun jv =>
      if jv.2 = FloatVal.fin 0 then some (ir.1, jv.1) else none

/-- Full tickets, fill order F then R then S then 1. -/
def filled_f_mx (f_mx r_mx s_mx : Mat) : Mat :=
  whereZeroOne (whereZero (whereZero f_mx r_mx) s_mx)

/-- Reduced tickets, fill order R then F then S then 1. -/
def filled_r_mx (f_mx r_mx s_mx : Mat) : Mat :=
  whereZeroOne (whereZero (whereZero r_mx f_mx) s_mx)

/-- Season tickets, fill order S then R then F then 1. -/
def filled_s_mx (f_mx r_mx s_mx : Mat) : Mat :=
  whereZeroOne (whereZero (whereZero s_mx r_mx) f_mx)

/-- The body of `fill_missing_factors`' loop for one purpose: the three
`growth_matrices[purpose][...]` subscript accesses raise KeyError (`none`)
when the purpose, or one of the ticket types F, R, S, is absent. -/
def fillPurpose (growth_matrices : List (ℤ × List (String × Mat))) (purpose : ℤ) :
    Option ((List (String × Mat)) × (List (String × List (ℕ × ℕ)))) := do
  let pd ← lookupKey purpose growth_matrices
  let f_mx ← lookupKey "F" pd
  let r_mx ← lookupKey "R" pd
  let s_mx ← lookupKey "S" pd
  pure ([("F", filled_f_mx f_mx r_mx s_mx), ("R", filled_r_mx f_mx r_mx s_mx),
    ("S", filled_s_mx f_mx r_mx s_mx)],
    [("F", argwhereZero f_mx), ("R", argwhereZero r_mx), ("S", argwhereZero s_mx)])

/-- Sequencing a fallible step over a list: the first failure aborts the
whole computation (a Python `for` loop whose body can raise). -/
def optionMapList {α β : Type} (f : α → Option β) : List α → Option (List β)
  | [] => some []
  | a :: t =>
      match f a, optionMapList f t with
      | some b, some bs => some (b :: bs)
      | _, _ => none

/-- `fill_missing_factors`: per purpose, fill each ticket type's matrix from
the other two originals with the fixed hierarchy and record the zero cells of
the originals; any KeyError aborts the whole call. -/
def fill_missing_factors (purposes : List ℤ)
    (growth_matrices : List (ℤ × List (String × Mat))) :
    Option ((List (ℤ × List (String × Mat))) × (List (ℤ × List (String × List (ℕ × ℕ))))) := do
  let rs ← optionMapList
    (fun p => (fillPurpose growth_matrices p).map fun pr => (p, pr)) purposes
  pure (rs.map fun e => (e.1, e.2.1), rs.map fun e => (e.1, e.2.2))

/-- One row of the iRSj split-probability table: columns
`from_model_zone_id`, `to_model_zone_id`, `userclass`, `from_stn_zone_id`,
`to_stn_zone_id`, `proportion`. -/
structure PropRow where
  fromZone : ℤ
  toZone : ℤ
  userclass : ℤ
  from_stn_zone_id : ℤ
  to_stn_zone_id : ℤ
  proportion : ℚ
deriving DecidableEq, Repr

/-- A row of the frame after the left join of the expanded, userclass-tagged
demand onto the split probabilities (lines 304-315 of `utils.py`), with
`proportion` renamed `stn_from_zone`; `none` models the NaN of an unmatched
left join. -/
structure MergedRow where
  fromZone : ℤ
  toZone : ℤ
  demand : ℚ
  from_stn : Option ℤ
  to_stn : Option ℤ
  stn_from_zone : Option ℚ
deriving DecidableEq, Repr

/-- Lines 304-308: left merge on
`(from_model_zone_id, to_model_zone_id, userclass)`; a demand row with no
matching probability row keeps NaN in the probability columns, one with
several matches is repeated for each. -/
def mergeProps (dm : List DemandRow) (irsj_props : List PropRow) (userclass : ℤ) :
    List MergedRow :=
  dm.flatMap fun d =>
    let ms := irsj_props.filter fun p =>
      p.fromZone = d.fromZone ∧ p.toZone = d.toZone ∧ p.userclass = userclass
    if ms.isEmpty then [⟨d.fromZone, d.toZone, d.demand, none, none, none⟩]
    else ms.map fun p =>
      ⟨d.fromZone, d.toZone, d.demand, some p.from_stn_zone_id, some p.to_stn_zone_id,
        some p.proportion⟩

/-- Lines 310-313: the zone-to-zone movements with demand but no proportion.
NOTE: the source computes this into a local variable `missing_props` that is
never used afterwards — it is neither returned nor logged. -/
def missing_props (mx_df : List MergedRow) : List (ℤ × ℤ) :=
  (mx_df.filter fun r => r.stn_from_zone = none ∧ 0 < r.demand).map
    fun r => (r.fromZone, r.toZone)

/-- A merged row after line 317 scales its demand by the origin-end
proportion (`Demand * stn_from_zone`); the demand becomes float NaN on rows
whose proportion is NaN. -/
structure ScaledRow where
  fromZone : ℤ
  toZone : ℤ
  demand : FloatVal
  from_stn : Option ℤ
  to_stn : Option ℤ
  stn_from_zone : Option ℚ
deriving DecidableEq, Repr

/-- Line 317: `mx_df["Demand"] = mx_df["Demand"] * mx_df["stn_from_zone"]`. -/
def scaleDemand (r : MergedRow) : ScaledRow :=
  ⟨r.fromZone, r.toZone,
    (match r.stn_from_zone with
      | some p => FloatVal.fin (r.demand * p)
      | none => FloatVal.nan),
    r.from_stn, r.to_stn, r.stn_from_zone⟩

/-- `groupby` over a two-column integer key followed by `.sum()`: one row
per distinct key (sorted), carrying the NaN-skipping sum of the group. -/
def groupbySum (l : List (ℤ × ℤ × FloatVal)) : List (ℤ × ℤ × FloatVal) :=
  (sortedKeysP (l.map fun t => (t.1, t.2.1))).map fun k =>
    (k.1, k.2, floatSum ((l.filter fun t => t.1 = k.1 ∧ t.2.1 = k.2).map fun t => t.2.2))

/-- Lines 320-328: `groupby(["from_stn_zone_id", "to_stn_zone_id"]).sum()`.
Rows whose group keys are NaN are excluded (`groupby`'s default `dropna`);
within a group the sum skips NaN values; keys come out sorted and unique. -/
def stn2stn_totals (rows : List ScaledRow) : List (ℤ × ℤ × FloatVal) :=
  groupbySum (rows.filterMap fun r =>
    match r.from_stn, r.to_stn with
    | some a, some b => some (a, b, r.demand)
    | _, _ => none)

/-- A row of the frame after lines 331-339: the station-pair subtotal has
been joined back on and the destination-end share computed. -/
structure FullRow where
  fromZone : ℤ
  toZone : ℤ
  demand : FloatVal
  from_stn : Option ℤ
  to_stn : Option ℤ
  stn_from_zone : Option ℚ
  stn2stn_total_demand : FloatVal
  stn_to_zone : FloatVal
deriving DecidableEq, Repr

/-- Lines 331-339: left-merge the station-pair subtotals back on
`(from_stn_zone_id, to_stn_zone_id)` (a NaN-keyed row matches nothing since
the grouped keys are never NaN, so its subtotal is NaN), then
`stn_to_zone = Demand / stn2stn_total_demand` with IEEE division. -/
def joinTotalsAndShare (rows : List ScaledRow) : List FullRow :=
  let totals := stn2stn_totals rows
  rows.map fun r =>
    let tot : FloatVal :=
      match r.from_stn, r.to_stn with
      | some a, some b =>
          (match totals.find? fun t => t.1 = a ∧ t.2.1 = b with
            | some t => t.2.2
            | none => FloatVal.nan)
      | _, _ => FloatVal.nan
    ⟨r.fromZone, r.toZone, r.demand, r.from_stn, r.to_stn, r.stn_from_zone, tot,
      FloatVal.div r.demand tot⟩

/-- One row of the returned zonal-to-stations conversion lookup after the
`fillna(0)` of line 369, which replaces the NaN of every column — the station
identifiers of unmatched rows as well as both proportions — by 0. -/
structure LookupRow where
  fromZone : ℤ
  from_stn : ℤ
  to_stn : ℤ
  toZone : ℤ
  stn_from_zone : ℚ
  stn_to_zone : FloatVal
deriving DecidableEq, Repr

/-- Lines 342-351 and 369: column selection plus `fillna(0)`. -/
def zonal_from_to_stns_output (rows : List FullRow) : List LookupRow :=
  rows.map fun r =>
    ⟨r.fromZone, (r.from_stn).getD 0, (r.to_stn).getD 0, r.toZone,
      (r.stn_from_zone).getD 0, (r.stn_to_zone).fillna0⟩

/-- Lines 353-361: keep the station triples, expand to the full
`stations_count` grid (whose `fillna(0)` turns NaN keys into the sentinel 0),
and group by station pair again. -/
def stnMatrixGroups (rows : List FullRow) (stations_count : ℕ) :
    List (ℤ × ℤ × FloatVal) :=
  groupbySum (expand_matrix_stn (rows.map fun r => (r.from_stn, r.to_stn, r.demand))
    stations_count)

/-- `zonal_from_to_stations_demand` (utils.py lines 266-375).  `model_zones`
is the `zones` argument of the `expand_matrix` call of line 297, which the
source leaves at its default of 1300; the theorems below hold for every
value of it. -/
def zonal_from_to_stations_demand (demand_mx : List DemandRow) (irsj_props : List PropRow)
    (stations_count : ℕ) (userclass : ℤ) (to_home : Bool) (model_zones : ℕ) :
    Mat × List LookupRow :=
  let expanded := expand_matrix demand_mx model_zones
  let oriented := if to_home then transpose_matrix expanded else expanded
  let merged := mergeProps oriented irsj_props userclass
  let scaled := merged.map scaleDemand
  let fullRows := joinTotalsAndShare scaled
  let lookup := zonal_from_to_stns_output fullRows
  let groups := stnMatrixGroups fullRows stations_count
  let kept := groups.filter fun t => t.1 ≠ 0 ∧ t.2.1 ≠ 0
  let kept2 := kept.map fun t => (t.1, t.2.1, (t.2.2).fillna0)
  (long_mx_2_wide_mx kept2, lookup)

/-- Cell `(i, j)` of a dense matrix. -/
def matCell (m : Mat) (i j : ℕ) : FloatVal :=
  (m.getD i []).getD j FloatVal.nan

/-- The per-cell fallback hierarchy as the specification words it: the first
non-zero source wins, otherwise the neutral multiplier 1. -/
def hierFirstNonZero (a b c : FloatVal) : FloatVal :=
  if ¬ a = FloatVal.fin 0 then a
  else if ¬ b = FloatVal.fin 0 then b
  else if ¬ c = FloatVal.fin 0 then c
  else FloatVal.fin 1

theorem shape_len {α : Type} (x f : List (List α))
    (hs : x.map List.length = f.map List.length) :
    x.length = f.length ∧ ∀ i, i < f.length → (x.getD i []).length = (f.getD i []).length := by
  have hlen : x.length = f.length := by
    have := congrArg List.length hs
    simpa using this
  refine ⟨hlen, ?_⟩
  intro i hif
  have hix : i < x.length := by omega
  have hx : (x.getD i []).length = ((x.map List.length).getD i 0) := by
    rw [List.getD_eq_getElem?_getD, List.getD_eq_getElem?_getD, List.getElem?_map,
      List.getElem?_eq_getElem hix]
    simp
  have hf2 : (f.getD i []).length = ((f.map List.length).getD i 0) := by
    rw [List.getD_eq_getElem?_getD, List.getD_eq_getElem?_getD, List.getElem?_map,
      List.getElem?_eq_getElem hif]
    simp
  rw [hx, hf2, hs]

theorem matCell_whereZero (x y : Mat) (i j : ℕ)
    (hix : i < x.length) (hiy : i < y.length)
    (hjx : j < (x.getD i []).length) (hjy : j < (y.getD i []).length) :
    matCell (whereZero x y) i j
      = (if matCell x i j = FloatVal.fin 0 then matCell y i j else matCell x i j) := by
  rw [List.getD_eq_getElem x [] hix] at hjx
  rw [List.getD_eq_getElem y [] hiy] at hjy
  unfold matCell whereZero
  rw [List.getD_eq_getElem?_getD, List.getD_eq_getElem?_getD, List.getElem?_zipWith,
    List.getElem?_eq_getElem hix, List.getElem?_eq_getElem hiy]
  simp only [Option.getD_some]
  rw [List.getD_eq_getElem?_getD, List.getElem?_zipWith,
    List.getElem?_eq_getElem hjx, List.getElem?_eq_getElem hjy]
  simp only [Option.getD_some, List.getD_eq_getElem?_getD,
    List.getElem?_eq_getElem hix, List.getElem?_eq_getElem hiy,
    List.getElem?_eq_getElem hjx, List.getElem?_eq_getElem hjy]

theorem whereZero_len (x y : Mat) : (whereZero x y).length = min x.length y.length := by
  simp [whereZero, List.length_zipWith]

theorem whereZero_row_len (x y : Mat) (i : ℕ) (hix : i < x.length) (hiy : i < y.length) :
    ((whereZero x y).getD i []).length = min (x.getD i []).length (y.getD i []).length := by
  unfold whereZero
  rw [List.getD_eq_getElem?_getD, List.getElem?_zipWith,
    List.getElem?_eq_getElem hix, List.getElem?_eq_getElem hiy,
    List.getD_eq_getElem x [] hix, List.getD_eq_getElem y [] hiy]
  simp [List.length_zipWith]

theorem matCell_whereZeroOne (x : Mat) (i j : ℕ)
    (hix : i < x.length) (hjx : j < (x.getD i []).length) :
    matCell (whereZeroOne x) i j
      = (if matCell x i j = FloatVal.fin 0 then FloatVal.fin 1 else matCell x i j) := by
  rw [List.getD_eq_getElem x [] hix] at hjx
  unfold matCell whereZeroOne
  rw [List.getD_eq_getElem?_getD, List.getD_eq_getElem?_getD, List.getElem?_map,
    List.getElem?_eq_getElem hix]
  simp only [Option.map_some', Option.getD_some]
  rw [List.getElem?_map, List.getElem?_eq_getElem hjx]
  simp only [Option.map_some', Option.getD_some, List.getD_eq_getElem?_getD,
    List.getElem?_eq_getElem hix, List.getElem?_eq_getElem hjx]

/-- The three-step `np.where` chain of the source equals the specification's
first-non-zero-wins hierarchy, cell by cell. -/
theorem matCell_filled_chain (a b c : Mat) (i j : ℕ)
    (hia : i < a.length) (hib : i < b.length) (hic : i < c.length)
    (hja : j < (a.getD i []).length) (hjb : j < (b.getD i []).length)
    (hjc : j < (c.getD i []).length) :
    matCell (whereZeroOne (whereZero (whereZero a b) c)) i j
      = hierFirstNonZero (matCell a i j) (matCell b i j) (matCell c i j) := by
  have hiw1 : i < (whereZero a b).length := by
    rw [whereZero_len]
    omega
  have hjw1 : j < ((whereZero a b).getD i []).length := by
    rw [whereZero_row_len a b i hia hib]
    omega
  have hiw2 : i < (whereZero (whereZero a b) c).length := by
    rw [whereZero_len]
    omega
  have hjw2 : j < ((whereZero (whereZero a b) c).getD i []).length := by
    rw [whereZero_row_len _ c i hiw1 hic]
    omega
  rw [matCell_whereZeroOne _ i j hiw2 hjw2,
    matCell_whereZero _ c i j hiw1 hic hjw1 hjc,
    matCell_whereZero a b i j hia hib hja hjb]
  unfold hierFirstNonZero
  by_cases h1 : matCell a i j = FloatVal.fin 0 <;>
    by_cases h2 : matCell b i j = FloatVal.fin 0 <;>
      by_cases h3 : matCell c i j = FloatVal.fin 0 <;>
        simp [h1, h2, h3]

/-- C2: for every purpose whose three ticket-type matrices exist (same
shape), `fill_missing_factors`' loop body produces filled matrices that are
functions of the three original (pre-fill) matrices only, and each filled
cell follows the fixed per-ticket-type fallback hierarchy, first non-zero
source wins: F gets F, else R, else S, else 1; R gets R, else F, else S,
else 1; S gets S, else R, else F, else 1.  The claim's concrete instances:
`F=0,R=5,S=0` fills F with 5; all zero fills F with 1; `F=3` keeps 3. -/
theorem C2_fill_hierarchy (gm : List (ℤ × List (String × Mat))) (purpose : ℤ)
    (pd : List (String × Mat)) (f_mx r_mx s_mx : Mat)
    (hpd : lookupKey purpose gm = some pd)
    (hf : lookupKey "F" pd = some f_mx)
    (hr : lookupKey "R" pd = some r_mx)
    (hs : lookupKey "S" pd = some s_mx)
    (hshape_r : r_mx.map List.length = f_mx.map List.length)
    (hshape_s : s_mx.map List.length = f_mx.map List.length) :
    fillPurpose gm purpose
      = some ([("F", filled_f_mx f_mx r_mx s_mx), ("R", filled_r_mx f_mx r_mx s_mx),
          ("S", filled_s_mx f_mx r_mx s_mx)],
        [("F", argwhereZero f_mx), ("R", argwhereZero r_mx), ("S", argwhereZero s_mx)])
    ∧ (∀ i j, i < f_mx.length → j < (f_mx.getD i []).length →
        matCell (filled_f_mx f_mx r_mx s_mx) i j
          = hierFirstNonZero (matCell f_mx i j) (matCell r_mx i j) (matCell s_mx i j)
        ∧ matCell (filled_r_mx f_mx r_mx s_mx) i j
          = hierFirstNonZero (matCell r_mx i j) (matCell f_mx i j) (matCell s_mx i j)
        ∧ matCell (filled_s_mx f_mx r_mx s_mx) i j
          = hierFirstNonZero (matCell s_mx i j) (matCell r_mx i j) (matCell f_mx i j))
    ∧ filled_f_mx [[FloatVal.fin 0]] [[FloatVal.fin 5]] [[FloatVal.fin 0]] = [[FloatVal.fin 5]]
    ∧ filled_f_mx [[FloatVal.fin 0]] [[FloatVal.fin 0]] [[FloatVal.fin 0]] = [[FloatVal.fin 1]]
    ∧ filled_f_mx [[FloatVal.fin 3]] [[FloatVal.fin 5]] [[FloatVal.fin 0]] = [[FloatVal.fin 3]] := by
  obtain ⟨hrl, hrrow⟩ := shape_len r_mx f_mx hshape_r
  obtain ⟨hsl, hsrow⟩ := shape_len s_mx f_mx hshape_s
  refine ⟨?_, ?_, by decide, by decide, by decide⟩
  · simp [fillPurpose, hpd, hf, hr, hs]
  · intro i j hi hj
    have hir : i < r_mx.length := by omega
    have his : i < s_mx.length := by omega
    have hjr : j < (r_mx.getD i []).length := by rw [hrrow i hi]; exact hj
    have hjs : j < (s_mx.getD i []).length := by rw [hsrow i hi]; exact hj
    exact ⟨matCell_filled_chain f_mx r_mx s_mx i j hi hir his hj hjr hjs,
      matCell_filled_chain r_mx f_mx s_mx i j hir hi his hjr hj hjs,
      matCell_filled_chain s_mx r_mx f_mx i j his hir hi hjs hjr hj⟩

theorem C2_fill_hierarchy_witness :
    matCell (filled_f_mx [[FloatVal.fin 0]] [[FloatVal.fin 5]] [[FloatVal.fin 0]]) 0 0
      = hierFirstNonZero (matCell [[FloatVal.fin 0]] 0 0) (matCell [[FloatVal.fin 5]] 0 0)
          (matCell [[FloatVal.fin 0]] 0 0) :=
  ((C2_fill_hierarchy
      [((1 : ℤ), [("F", [[FloatVal.fin 0]]), ("R", [[FloatVal.fin 5]]),
        ("S", [[FloatVal.fin 0]])])]
      1 [("F", [[FloatVal.fin 0]]), ("R", [[FloatVal.fin 5]]), ("S", [[FloatVal.fin 0]])]
      [[FloatVal.fin 0]] [[FloatVal.fin 5]] [[FloatVal.fin 0]]
      (by decide) (by decide) (by decide) (by decide) (by decide) (by decide)).2.1
    0 0 (by decide) (by decide)).1

theorem whereZeroOne_nonzero (x : Mat) :
    ∀ row ∈ whereZeroOne x, ∀ v ∈ row, ¬ v = FloatVal.fin 0 := by
  intro row hrow v hv
  rcases List.mem_map.mp hrow with ⟨r0, hr0, rfl⟩
  rcases List.mem_map.mp hv with ⟨a, ha, rfl⟩
  by_cases h : a = FloatVal.fin 0 <;> simp [h]

/-- C5: every cell of every matrix produced by the fill step is non-zero,
and a cell all three of whose sources are zero carries exactly the neutral
multiplier 1. -/
theorem C5_filled_nonzero (gm : List (ℤ × List (String × Mat))) (purpose : ℤ)
    (pd : List (String × Mat)) (f_mx r_mx s_mx : Mat)
    (filled : List (String × Mat)) (miss : List (String × List (ℕ × ℕ)))
    (hpd : lookupKey purpose gm = some pd)
    (hf : lookupKey "F" pd = some f_mx)
    (hr : lookupKey "R" pd = some r_mx)
    (hs : lookupKey "S" pd = some s_mx)
    (hshape_r : r_mx.map List.length = f_mx.map List.length)
    (hshape_s : s_mx.map List.length = f_mx.map List.length)
    (hrun : fillPurpose gm purpose = some (filled, miss)) :
    (∀ e ∈ filled, ∀ row ∈ e.2, ∀ v ∈ row, ¬ v = FloatVal.fin 0)
    ∧ (∀ i j, i < f_mx.length → j < (f_mx.getD i []).length →
        matCell f_mx i j = FloatVal.fin 0 → matCell r_mx i j = FloatVal.fin 0 →
        matCell s_mx i j = FloatVal.fin 0 →
        matCell (filled_f_mx f_mx r_mx s_mx) i j = FloatVal.fin 1
        ∧ matCell (filled_r_mx f_mx r_mx s_mx) i j = FloatVal.fin 1
        ∧ matCell (filled_s_mx f_mx r_mx s_mx) i j = FloatVal.fin 1) := by
  have hfilled : filled = [("F", filled_f_mx f_mx r_mx s_mx),
      ("R", filled_r_mx f_mx r_mx s_mx), ("S", filled_s_mx f_mx r_mx s_mx)] := by
    rw [show fillPurpose gm purpose
      = some ([("F", filled_f_mx f_mx r_mx s_mx), ("R", filled_r_mx f_mx r_mx s_mx),
          ("S", filled_s_mx f_mx r_mx s_mx)],
        [("F", argwhereZero f_mx), ("R", argwhereZero r_mx), ("S", argwhereZero s_mx)])
      from by simp [fillPurpose, hpd, hf, hr, hs]] at hrun
    exact (congrArg Prod.fst (Option.some_inj.mp hrun)).symm
  constructor
  · intro e he row hrow v hv
    subst hfilled
    simp only [List.mem_cons, List.not_mem_nil, or_false] at he
    rcases he with he | he | he <;> subst he <;>
      exact whereZeroOne_nonzero _ row hrow v hv
  · intro i j hi hj h1 h2 h3
    have hcells := (C2_fill_hierarchy gm purpose pd f_mx r_mx s_mx hpd hf hr hs
      hshape_r hshape_s).2.1 i j hi hj
    rw [hcells.1, hcells.2.1, hcells.2.2]
    simp [hierFirstNonZero, h1, h2, h3]

theorem C5_filled_nonzero_witness :
    matCell (filled_f_mx [[FloatVal.fin 0]] [[FloatVal.fin 0]] [[FloatVal.fin 0]]) 0 0
      = FloatVal.fin 1 :=
  ((C5_filled_nonzero
      [((1 : ℤ), [("F", [[FloatVal.fin 0]]), ("R", [[FloatVal.fin 0]]),
        ("S", [[FloatVal.fin 0]])])]
      1 [("F", [[FloatVal.fin 0]]), ("R", [[FloatVal.fin 0]]), ("S", [[FloatVal.fin 0]])]
      [[FloatVal.fin 0]] [[FloatVal.fin 0]] [[FloatVal.fin 0]]
      [("F", filled_f_mx [[FloatVal.fin 0]] [[FloatVal.fin 0]] [[FloatVal.fin 0]]),
        ("R", filled_r_mx [[FloatVal.fin 0]] [[FloatVal.fin 0]] [[FloatVal.fin 0]]),
        ("S", filled_s_mx [[FloatVal.fin 0]] [[FloatVal.fin 0]] [[FloatVal.fin 0]])]
      [("F", argwhereZero [[FloatVal.fin 0]]), ("R", argwhereZero [[FloatVal.fin 0]]),
        ("S", argwhereZero [[FloatVal.fin 0]])]
      (by decide) (by decide) (by decide) (by decide) (by decide) (by decide)
      (by rfl)).2
    0 0 (by decide) (by decide) (by decide) (by decide) (by decide)).1

theorem optionMapList_none {α β : Type} (f : α → Option β) (l : List α) (a : α)
    (ha : a ∈ l) (hf : f a = none) : optionMapList f l = none := by
  induction l with
  | nil => cases ha
  | cons x t ih =>
      rcases List.mem_cons.mp ha with rfl | ha2
      · simp [optionMapList, hf]
      · cases hx : f x with
        | none => simp [optionMapList, hx]
        | some b => simp [optionMapList, hx, ih ha2]

theorem lookupKey_eq_none {α β : Type} [DecidableEq α] (k : α) (d : List (α × β)) :
    lookupKey k d = none ↔ ∀ e ∈ d, ¬ e.1 = k := by
  unfold lookupKey
  rw [Option.map_eq_none', List.find?_eq_none]
  simp

theorem lookupKey_mem {α β : Type} [DecidableEq α] (k : α) (d : List (α × β)) (v : β)
    (h : lookupKey k d = some v) : ∃ e ∈ d, e.1 = k ∧ e.2 = v := by
  unfold lookupKey at h
  rcases Option.map_eq_some'.mp h with ⟨e, he, hev⟩
  refine ⟨e, List.mem_of_find?_eq_some he, ?_, hev⟩
  have hp := List.find?_some he
  exact of_decide_eq_true hp

theorem fillPurpose_none (gm : List (ℤ × List (String × Mat))) (p : ℤ)
    (h : ∀ pd, lookupKey p gm = some pd →
      lookupKey "F" pd = none ∨ lookupKey "R" pd = none ∨ lookupKey "S" pd = none) :
    fillPurpose gm p = none := by
  unfold fillPurpose
  cases hpd : lookupKey p gm with
  | none => rfl
  | some pd =>
      rcases h pd hpd with hn | hn | hn
      · simp [hn]
      · cases hf : lookupKey "F" pd <;> simp [hf, hn]
      · cases hf : lookupKey "F" pd <;> cases hr : lookupKey "R" pd <;> simp [hf, hr, hn]

theorem fill_missing_factors_none (purposes : List ℤ)
    (gm : List (ℤ × List (String × Mat))) (p : ℤ) (hp : p ∈ purposes)
    (hfail : fillPurpose gm p = none) :
    fill_missing_factors purposes gm = none := by
  unfold fill_missing_factors
  rw [optionMapList_none _ purposes p hp (by simp [hfail])]
  rfl

/-- Every value stored in the dictionary built by `prepare_growth_matrices`
has exactly the ticket types occurring in the factor records as its keys. -/
theorem prepare_keys (demand_segments : List SegRow) (factors : List FactorRow)
    (stations_lookup : List StationRow) (p : ℤ) (pd : List (String × Mat))
    (hpd : lookupKey p (prepare_growth_matrices demand_segments factors stations_lookup)
      = some pd) :
    pd.map (fun e => e.1) = uniqueList (factors.map fun r => r.ticketType) := by
  rcases lookupKey_mem _ _ _ hpd with ⟨e, he, _, hev⟩
  unfold prepare_growth_matrices at he
  dsimp only at he
  rcases List.mem_map.mp he with ⟨p2, _, hpe⟩
  rw [← hev, ← hpe]
  dsimp only
  rw [List.map_map]
  exact (List.map_congr_left fun t ht => rfl).trans (List.map_id _)

/-- C10: `fill_missing_factors` fails with a KeyError (models as `none`)
whenever some listed purpose's entry lacks any of the keys F, R, S (first
conjunct); and because `prepare_growth_matrices` creates entries only for
ticket types that occur in the growth-factor records, a required ticket type
entirely absent from the records makes the fill step fail for every
non-empty purpose list (second conjunct). -/
theorem C10_fill_keyerror :
    (∀ (purposes : List ℤ) (gm : List (ℤ × List (String × Mat))) (p : ℤ),
      p ∈ purposes →
      (∀ pd, lookupKey p gm = some pd →
        lookupKey "F" pd = none ∨ lookupKey "R" pd = none ∨ lookupKey "S" pd = none) →
      fill_missing_factors purposes gm = none)
    ∧ (∀ (demand_segments : List SegRow) (factors : List FactorRow)
        (stations_lookup : List StationRow) (purposes : List ℤ) (t : String),
      (t = "F" ∨ t = "R" ∨ t = "S") →
      (∀ rec ∈ factors, ¬ rec.ticketType = t) →
      ¬ purposes = [] →
      fill_missing_factors purposes
        (prepare_growth_matrices demand_segments factors stations_lookup) = none) := by
  constructor
  · intro purposes gm p hp h
    exact fill_missing_factors_none purposes gm p hp (fillPurpose_none gm p h)
  · intro demand_segments factors stations_lookup purposes t ht hnot hne
    obtain ⟨p, rest, rfl⟩ := List.exists_cons_of_ne_nil hne
    apply fill_missing_factors_none _ _ p (by simp)
    apply fillPurpose_none
    intro pd hpd
    have hkeys := prepare_keys demand_segments factors stations_lookup p pd hpd
    have htnot : ∀ e ∈ pd, ¬ e.1 = t := by
      intro e he het
      have : t ∈ pd.map fun e2 => e2.1 := by
        rw [← het]
        exact List.mem_map_of_mem _ he
      rw [hkeys, mem_uniqueList] at this
      rcases List.mem_map.mp this with ⟨rec, hrec, hrt⟩
      exact hnot rec hrec hrt
    have hnone : lookupKey t pd = none := (lookupKey_eq_none t pd).mpr htnot
    rcases ht with rfl | rfl | rfl
    · exact Or.inl hnone
    · exact Or.inr (Or.inl hnone)
    · exact Or.inr (Or.inr hnone)

theorem C10_fill_keyerror_witness :
    fill_missing_factors [1]
      [((1 : ℤ), [("F", ([[FloatVal.fin 2]] : Mat))])] = none
    ∧ fill_missing_factors [1]
      (prepare_growth_matrices [⟨1⟩]
        [⟨"A", "B", 1, "F", 2⟩] [⟨"A", 1⟩, ⟨"B", 2⟩]) = none :=
  ⟨C10_fill_keyerror.1 [1] [((1 : ℤ), [("F", ([[FloatVal.fin 2]] : Mat))])] 1 (by decide)
      (by intro pd hpd; right; left; simp [lookupKey] at hpd; rw [← hpd]; decide),
    C10_fill_keyerror.2 [⟨1⟩] [⟨"A", "B", 1, "F", 2⟩] [⟨"A", 1⟩, ⟨"B", 2⟩] [1] "R"
      (by simp) (by decide) (by decide)⟩

theorem FloatVal.div_fin_fin (a b : ℚ) (hb : ¬ b = 0) :
    FloatVal.div (FloatVal.fin a) (FloatVal.fin b) = FloatVal.fin (a / b) := by
  unfold FloatVal.div
  simp [hb]

theorem sortedKeysZ_const {α : Type} (r : ℤ) (l : List α) (hl : ¬ l = []) :
    sortedKeysZ (l.map fun _ => r) = [r] := by
  have hd : (l.map fun _ => r).dedup = [r] := by
    induction l with
    | nil => exact absurd rfl hl
    | cons a t ih =>
        cases t with
        | nil => simp
        | cons b t2 =>
            rw [List.map_cons, List.dedup_cons_of_mem (by simp)]
            exact ih (by simp)
  rw [sortedKeysZ, hd]
  rfl

/-- Helper: pivoting a long table whose rows all carry the one key pair
`(r, c)` yields the 1-by-1 matrix holding the arithmetic mean of the values. -/
theorem pivot_single_key_mean (r c : ℤ) (vs : List ℚ) (hvs : ¬ vs = []) :
    long_mx_2_wide_mx (vs.map fun q => (r, c, FloatVal.fin q))
      = [[FloatVal.fin (vs.sum / (vs.length : ℚ))]] := by
  have hne : ¬ (vs.map fun q => ((r, c, FloatVal.fin q) : ℤ × ℤ × FloatVal)) = [] := by
    simp [hvs]
  have hrks : sortedKeysZ ((vs.map fun q => ((r, c, FloatVal.fin q) : ℤ × ℤ × FloatVal)).map
      fun t => t.1) = [r] := by
    rw [List.map_map]
    exact sortedKeysZ_const r vs (by simpa using hvs)
  have hcks : sortedKeysZ ((vs.map fun q => ((r, c, FloatVal.fin q) : ℤ × ℤ × FloatVal)).map
      fun t => t.2.1) = [c] := by
    rw [List.map_map]
    exact sortedKeysZ_const c vs (by simpa using hvs)
  have hcell : pivotCell (vs.map fun q => (r, c, FloatVal.fin q)) r c
      = FloatVal.fin (vs.sum / (vs.length : ℚ)) := by
    unfold pivotCell
    have hfilter : ((vs.map fun q => ((r, c, FloatVal.fin q) : ℤ × ℤ × FloatVal)).filter
        fun t => t.1 = r ∧ t.2.1 = c) = vs.map fun q => (r, c, FloatVal.fin q) :=
      List.filter_eq_self.mpr (by
        intro t ht
        rcases List.mem_map.mp ht with ⟨q, hq, rfl⟩
        simp)
    rw [hfilter, List.map_map]
    have hmap : ((fun t : ℤ × ℤ × FloatVal => t.2.2) ∘ fun q => ((r, c, FloatVal.fin q)))
        = FloatVal.fin := rfl
    rw [hmap]
    have hfins : ((vs.map FloatVal.fin).filter fun v => ¬ v = FloatVal.nan)
        = vs.map FloatVal.fin :=
      List.filter_eq_self.mpr (by
        intro v hv
        rcases List.mem_map.mp hv with ⟨q, hq, rfl⟩
        simp)
    rw [hfins]
    rw [if_neg (by simpa using hvs)]
    unfold floatMean
    rw [floatSum_map_fin, List.length_map]
    exact FloatVal.div_fin_fin vs.sum (vs.length : ℚ) (by
      intro h
      have h2 : vs.length = 0 := by exact_mod_cast h
      exact hvs (List.length_eq_zero.mp h2))
  unfold long_mx_2_wide_mx
  rw [hrks, hcks]
  simp only [List.map_cons, List.map_nil]
  rw [hcell]
  apply dropNaNCols_of_no_nan _ 1
  · intro row hrow
    simp only [List.mem_singleton] at hrow
    rw [hrow]
    rfl
  · intro row hrow v hv
    simp only [List.mem_singleton] at hrow
    subst hrow
    simp only [List.mem_singleton] at hv
    subst hv
    simp

/-- C4 counterexample: a long table with two rows for the one (row key,
column key) pair (1, 1) does not fail — `long_mx_2_wide_mx` returns a matrix
in which the duplicate values 2 and 4 have been silently aggregated to their
arithmetic mean 3 (`pivot_table`'s default `aggfunc`), refuting the claim
that duplicates raise a data-integrity error. -/
theorem C4_counterexample :
    long_mx_2_wide_mx [(1, 1, FloatVal.fin 2), (1, 1, FloatVal.fin 4)]
      = [[FloatVal.fin 3]] := by
  have h := pivot_single_key_mean 1 1 [2, 4] (by decide)
  simp only [List.map_cons, List.map_nil] at h
  rw [h]
  norm_num

/-- C4 amended: the pivot never raises on duplicate (row key, column key)
pairs; it silently aggregates the duplicate values by their arithmetic mean
(pandas `pivot_table`'s default `aggfunc`) and returns the matrix. -/
theorem C4_pivot_mean (r c : ℤ) (vs : List ℚ) (hvs : ¬ vs = []) :
    long_mx_2_wide_mx (vs.map fun q => (r, c, FloatVal.fin q))
      = [[FloatVal.fin (vs.sum / (vs.length : ℚ))]] :=
  pivot_single_key_mean r c vs hvs

theorem C4_pivot_mean_witness :
    long_mx_2_wide_mx ([2, 4].map fun q : ℚ => (1, 1, FloatVal.fin q))
      = [[FloatVal.fin (([2, 4] : List ℚ).sum / (([2, 4] : List ℚ).length : ℚ))]] :=
  C4_pivot_mean 1 1 [2, 4] (by decide)

/-- Characterisation of the rows of `expand_matrix`: the outer merge yields
(a) every input row whose key pair lies on the grid, (b) a zero row for every
grid pair matched by no input row, and (c) — because the merge is `outer`,
not left — every input row whose key pair lies outside the grid. -/
theorem mem_expand_matrix (mx : List DemandRow) (zones : ℕ) (row : DemandRow) :
    row ∈ expand_matrix mx zones ↔
      ((row ∈ mx ∧ demandKey row ∈ gridPairs zones)
        ∨ (demandKey row ∈ gridPairs zones ∧ row.demand = 0
            ∧ ∀ r2 ∈ mx, ¬ demandKey r2 = demandKey row)
        ∨ (row ∈ mx ∧ ¬ demandKey row ∈ gridPairs zones)) := by
  unfold expand_matrix
  rw [List.mem_append, List.mem_flatMap]
  constructor
  · rintro (⟨p, hp, hrow⟩ | hrow)
    · dsimp only at hrow
      split at hrow
      case isTrue hempty =>
          rcases List.mem_singleton.mp hrow with rfl
          refine Or.inr (Or.inl ⟨by simpa [demandKey] using hp, rfl, ?_⟩)
          intro r2 hr2 hkey
          have : r2 ∈ mx.filter fun r => demandKey r = p := by
            rw [List.mem_filter]
            exact ⟨hr2, by simpa [demandKey] using hkey⟩
          rw [List.isEmpty_iff.mp hempty] at this
          cases this
      case isFalse hempty =>
          rcases List.mem_filter.mp hrow with ⟨hrmx, hrkey⟩
          exact Or.inl ⟨hrmx, by rw [of_decide_eq_true hrkey]; exact hp⟩
    · rcases List.mem_filter.mp hrow with ⟨hrmx, hrkey⟩
      exact Or.inr (Or.inr ⟨hrmx, of_decide_eq_true hrkey⟩)
  · rintro (⟨hrmx, hkey⟩ | ⟨hkey, hdem, hnom⟩ | ⟨hrmx, hkey⟩)
    · refine Or.inl ⟨demandKey row, hkey, ?_⟩
      dsimp only
      have hmem : row ∈ mx.filter fun r => demandKey r = demandKey row := by
        rw [List.mem_filter]
        exact ⟨hrmx, by simp⟩
      rw [if_neg (by
        intro hempty
        rw [List.isEmpty_iff.mp hempty] at hmem
        cases hmem)]
      exact hmem
    · refine Or.inl ⟨demandKey row, hkey, ?_⟩
      dsimp only
      rw [if_pos (by
        rw [List.isEmpty_iff]
        rw [List.filter_eq_nil_iff]
        intro r2 hr2
        simpa using hnom r2 hr2)]
      have : row = ⟨(demandKey row).1, (demandKey row).2, 0⟩ := by
        obtain ⟨a, b, d⟩ := row
        simp only [demandKey] at hdem ⊢
        rw [hdem]
      rw [← this]
      simp
    · refine Or.inr ?_
      rw [List.mem_filter]
      exact ⟨hrmx, by simpa using hkey⟩

/-- C7 counterexample: with dimension 1 and the single input row keyed
(0, 0) — a pair outside the 1-based grid — the output of `expand_matrix`
contains a row whose key pair is not in the cross product, refuting the
claim that the output key set is exactly the full cross product. -/
theorem C7_counterexample :
    ¬ ∀ row ∈ expand_matrix [⟨0, 0, 7⟩] 1, demandKey row ∈ gridPairs 1 := by
  intro h
  have hmem : (⟨0, 0, 7⟩ : DemandRow) ∈ expand_matrix [⟨0, 0, 7⟩] 1 := by decide
  have := h ⟨0, 0, 7⟩ hmem
  revert this
  decide

/-- C7 amended: `expand_matrix` performs an `outer` (not left) merge of the
input onto the full cross product: the output key set is the cross product
UNION the input's key pairs; grid pairs matched by no input row carry exact
zero; every output row is either an input row or such a zero row; and every
input row — including those keyed outside the grid — is retained. -/
theorem C7_expand_outer (mx : List DemandRow) (zones : ℕ) :
    (∀ k : ℤ × ℤ, (∃ row ∈ expand_matrix mx zones, demandKey row = k)
        ↔ (k ∈ gridPairs zones ∨ ∃ row ∈ mx, demandKey row = k))
    ∧ (∀ row ∈ expand_matrix mx zones,
        row ∈ mx ∨ (demandKey row ∈ gridPairs zones ∧ row.demand = 0))
    ∧ (∀ row ∈ mx, row ∈ expand_matrix mx zones) := by
  refine ⟨?_, ?_, ?_⟩
  · intro k
    constructor
    · rintro ⟨row, hrow, rfl⟩
      rcases (mem_expand_matrix mx zones row).mp hrow with ⟨h1, h2⟩ | ⟨h1, _, _⟩ | ⟨h1, h2⟩
      · exact Or.inl h2
      · exact Or.inl h1
      · exact Or.inr ⟨row, h1, rfl⟩
    · rintro (hk | ⟨row, hrow, rfl⟩)
      · by_cases hex : ∃ row ∈ mx, demandKey row = k
        · rcases hex with ⟨row, hrow, rfl⟩
          exact ⟨row, (mem_expand_matrix mx zones row).mpr (Or.inl ⟨hrow, hk⟩), rfl⟩
        · refine ⟨⟨k.1, k.2, 0⟩, (mem_expand_matrix mx zones _).mpr
            (Or.inr (Or.inl ⟨by simpa [demandKey] using hk, rfl, ?_⟩)), by simp [demandKey]⟩
          intro r2 hr2 hkey
          exact hex ⟨r2, hr2, by simpa [demandKey] using hkey⟩
      · refine ⟨row, ?_, rfl⟩
        by_cases hk : demandKey row ∈ gridPairs zones
        · exact (mem_expand_matrix mx zones row).mpr (Or.inl ⟨hrow, hk⟩)
        · exact (mem_expand_matrix mx zones row).mpr (Or.inr (Or.inr ⟨hrow, hk⟩))
  · intro row hrow
    rcases (mem_expand_matrix mx zones row).mp hrow with ⟨h1, _⟩ | ⟨h1, h2, _⟩ | ⟨h1, _⟩
    · exact Or.inl h1
    · exact Or.inr ⟨h1, h2⟩
    · exact Or.inl h1
  · intro row hrow
    by_cases hk : demandKey row ∈ gridPairs zones
    · exact (mem_expand_matrix mx zones row).mpr (Or.inl ⟨hrow, hk⟩)
    · exact (mem_expand_matrix mx zones row).mpr (Or.inr (Or.inr ⟨hrow, hk⟩))

theorem C7_expand_outer_witness :
    (⟨0, 0, (7 : ℚ)⟩ : DemandRow) ∈ expand_matrix [⟨0, 0, 7⟩] 1 :=
  (C7_expand_outer [⟨0, 0, 7⟩] 1).2.2 ⟨0, 0, 7⟩ (by decide)

theorem flatMap_congr_mem {α β : Type} (l : List α) (f g : α → List β)
    (h : ∀ a ∈ l, f a = g a) : l.flatMap f = l.flatMap g := by
  induction l with
  | nil => rfl
  | cons a t ih =>
      rw [List.flatMap_cons, List.flatMap_cons, h a (by simp),
        ih fun b hb => h b (by simp [hb])]

/-- Splitting a filter over a disjunction of two predicates that never both
hold gives (up to permutation) the two separate filters. -/
theorem filter_orelse_perm {α : Type} (p q : α → Bool) (l : List α)
    (hdisj : ∀ a ∈ l, ¬ (p a = true ∧ q a = true)) :
    (l.filter fun a => p a || q a).Perm (l.filter p ++ l.filter q) := by
  induction l with
  | nil => simp
  | cons a t ih =>
      have hdisj2 : ∀ b ∈ t, ¬ (p b = true ∧ q b = true) := fun b hb => hdisj b (by simp [hb])
      by_cases hp : p a
      · have hq : ¬ q a = true := fun hq => hdisj a (by simp) ⟨hp, hq⟩
        simp only [List.filter_cons, hp, hq, Bool.true_or, if_true, if_false,
          Bool.false_eq_true, cond_true]
        simpa using (ih hdisj2).cons a
      · by_cases hq : q a
        · simp only [List.filter_cons, hp, hq, Bool.false_or, Bool.false_eq_true,
            if_false, if_true]
          refine List.Perm.trans ?_ List.perm_middle.symm
          simpa using (ih hdisj2).cons a
        · simp only [List.filter_cons, hp, hq, Bool.false_or, Bool.false_eq_true, if_false]
          simpa using ih hdisj2

/-- In a lookup whose codes are distinct, searching for the code of a member
finds that member. -/
theorem find?_code_self {β κ : Type} [DecidableEq κ] (code : β → κ) (ks : List β)
    (hnd : (ks.map code).Nodup) (s : β) (hs : s ∈ ks) :
    ks.find? (fun s2 => code s2 = code s) = some s := by
  induction ks with
  | nil => cases hs
  | cons a t ih =>
      rw [List.map_cons, List.nodup_cons] at hnd
      rcases List.mem_cons.mp hs with rfl | hst
      · rw [List.find?_cons_of_pos _ (by simp)]
      · have hne : ¬ code a = code s := by
          intro h
          exact hnd.1 (h ▸ List.mem_map_of_mem code hst)
        rw [List.find?_cons_of_neg _ (by simpa using hne)]
        exact ih hnd.2 hst

/-- Resolution of a station code through the lookup (the value a successful
right-join row carries). -/
def findStation (stations_lookup : List StationRow) (code : String) : Option StationRow :=
  stations_lookup.find? fun s => s.stationCode = code

/-- A right join onto a lookup with distinct codes is, up to permutation, a
filter of the left table to the codes present plus a per-row resolution. -/
theorem right_join_perm {γ δ : Type} (ks : List StationRow)
    (hnd : (ks.map fun s => s.stationCode).Nodup)
    (l : List γ) (key : γ → String) (g : γ → StationRow → δ) (dflt : StationRow) :
    (ks.flatMap fun s => ((l.filter fun x => key x = s.stationCode).map fun x => g x s)).Perm
      ((l.filter fun x => key x ∈ ks.map fun s => s.stationCode).map
        fun x => g x ((findStation ks (key x)).getD dflt)) := by
  induction ks with
  | nil => simp
  | cons s t ih =>
      rw [List.map_cons, List.nodup_cons] at hnd
      rw [List.flatMap_cons]
      have hsplit : ((l.filter fun x => key x ∈ (s.stationCode :: t.map fun s2 => s2.stationCode)).map
          fun x => g x ((findStation (s :: t) (key x)).getD dflt)).Perm
          (((l.filter fun x => key x = s.stationCode) ++
            (l.filter fun x => key x ∈ t.map fun s2 => s2.stationCode)).map
          fun x => g x ((findStation (s :: t) (key x)).getD dflt)) := by
        apply List.Perm.map
        have hconv : (l.filter fun x => key x ∈ (s.stationCode :: t.map fun s2 => s2.stationCode))
            = l.filter fun x => (key x = s.stationCode) ∨ (key x ∈ t.map fun s2 => s2.stationCode) := by
          apply List.filter_congr
          intro x _
          simp [List.mem_cons]
        rw [hconv]
        have hdisj : ∀ x ∈ l, ¬ ((decide (key x = s.stationCode)) = true ∧
            (decide (key x ∈ t.map fun s2 => s2.stationCode)) = true) := by
          intro x _ ⟨h1, h2⟩
          exact hnd.1 (of_decide_eq_true h1 ▸ of_decide_eq_true h2)
        have := filter_orelse_perm (fun x => decide (key x = s.stationCode))
          (fun x => decide (key x ∈ t.map fun s2 => s2.stationCode)) l hdisj
        refine List.Perm.trans ?_ this
        apply List.Perm.of_eq
        apply List.filter_congr
        intro x _
        by_cases h1 : key x = s.stationCode <;> by_cases h2 : key x ∈ t.map fun s2 => s2.stationCode <;>
          simp [h1, h2]
      refine List.Perm.trans ?_ hsplit.symm
      rw [List.map_append]
      apply List.Perm.append
      · apply List.Perm.of_eq
        apply List.map_congr_left
        intro x hx
        have hkey : key x = s.stationCode := of_decide_eq_true (List.mem_filter.mp hx).2
        have hfind : findStation (s :: t) (key x) = some s := by
          unfold findStation
          rw [List.find?_cons_of_pos _ (by simpa using hkey.symm)]
        rw [hfind]
        rfl
      · refine List.Perm.trans (ih hnd.2) ?_
        apply List.Perm.of_eq
        apply List.map_congr_left
        intro x hx
        have hkey : key x ∈ t.map fun s2 => s2.stationCode :=
          of_decide_eq_true (List.mem_filter.mp hx).2
        have hne : ¬ s.stationCode = key x := by
          intro h
          exact hnd.1 (h ▸ hkey)
        have hfind : findStation (s :: t) (key x) = findStation t (key x) := by
          unfold findStation
          rw [List.find?_cons_of_neg _ (by simpa using hne)]
        rw [hfind]

/-- The rows of the first right-merge that carry an actual input row. -/
theorem mergeFrom_extract (stations_lookup : List StationRow) (df : List FactorRow) :
    ((mergeFromStations stations_lookup df).filterMap fun r => r.1.map fun d => (d, r.2))
      = stations_lookup.flatMap fun s =>
        ((df.filter fun d => d.zoneCodeFrom = s.stationCode).map fun d => (d, s)) := by
  unfold mergeFromStations
  rw [List.filterMap_flatMap]
  apply flatMap_congr_mem
  intro s _
  dsimp only
  split
  case isTrue h =>
      rw [List.isEmpty_iff.mp h]
      rfl
  case isFalse h =>
      rw [List.filterMap_map]
      have hcg : ∀ d ∈ df.filter fun d2 => d2.zoneCodeFrom = s.stationCode,
          ((fun r : Option FactorRow × StationRow => r.1.map fun d2 => (d2, r.2))
            ∘ fun d2 => (some d2, s)) d = some (d, s) := fun d _ => rfl
      rw [List.filterMap_congr hcg]
      exact List.filterMap_eq_map _ ▸ rfl

theorem filterMap_opt_rows (m1 : List (Option FactorRow × StationRow)) (c : String)
    (s2 : StationRow) :
    ((m1.filter fun r => (r.1.map fun d => d.zoneCodeTo) = some c).filterMap
        fun r => r.1.map fun d =>
          (⟨d.zoneCodeFrom, d.zoneCodeTo, d.purpose, d.ticketType, d.demandRate,
            r.2.stnZoneId, s2.stnZoneId⟩ : StnFactorRow))
      = (((m1.filterMap fun r => r.1.map fun d => (d, r.2)).filter
          fun e => e.1.zoneCodeTo = c).map
        fun e => ⟨e.1.zoneCodeFrom, e.1.zoneCodeTo, e.1.purpose, e.1.ticketType,
          e.1.demandRate, e.2.stnZoneId, s2.stnZoneId⟩) := by
  induction m1 with
  | nil => rfl
  | cons r t ih =>
      obtain ⟨o, s1⟩ := r
      cases o with
      | none => simpa using ih
      | some d =>
          have hpull : (((some d, s1) :: t).filterMap fun r => r.1.map fun d2 => (d2, r.2))
              = (d, s1) :: (t.filterMap fun r => r.1.map fun d2 => (d2, r.2)) := by
            rw [List.filterMap_cons]
            rfl
          by_cases hc : d.zoneCodeTo = c
          · have h1 : (((some d, s1) :: t).filter
                fun r => (r.1.map fun d2 => d2.zoneCodeTo) = some c)
                = (some d, s1) :: (t.filter
                    fun r => (r.1.map fun d2 => d2.zoneCodeTo) = some c) := by
              rw [List.filter_cons, if_pos (by simp [hc])]
            rw [h1, List.filterMap_cons, hpull, List.filter_cons, if_pos (by simp [hc]),
              List.map_cons]
            show _ :: _ = _ :: _
            rw [ih]
          · have h1 : (((some d, s1) :: t).filter
                fun r => (r.1.map fun d2 => d2.zoneCodeTo) = some c)
                = t.filter fun r => (r.1.map fun d2 => d2.zoneCodeTo) = some c := by
              rw [List.filter_cons, if_neg (by simp [hc])]
            rw [h1, hpull, List.filter_cons, if_neg (by simp [hc])]
            exact ih

/-- `merge_to_stations`, rewritten so that the second right-join acts on the
non-NaN rows of the first. -/
theorem merge_to_stations_eq (stations_lookup : List StationRow) (df : List FactorRow) :
    merge_to_stations stations_lookup df
      = stations_lookup.flatMap fun s2 =>
        ((((mergeFromStations stations_lookup df).filterMap
              fun r => r.1.map fun d => (d, r.2)).filter
            fun e => e.1.zoneCodeTo = s2.stationCode).map
          fun e => ⟨e.1.zoneCodeFrom, e.1.zoneCodeTo, e.1.purpose, e.1.ticketType,
            e.1.demandRate, e.2.stnZoneId, s2.stnZoneId⟩) := by
  unfold merge_to_stations mergeToStationsSecond
  rw [List.filterMap_flatMap]
  apply flatMap_congr_mem
  intro s2 _
  dsimp only
  split
  case isTrue hemp =>
      have hnil : ((mergeFromStations stations_lookup df).filter
          fun r => (r.1.map fun d => d.zoneCodeTo) = some s2.stationCode) = [] :=
        List.isEmpty_iff.mp hemp
      rw [← filterMap_opt_rows _ s2.stationCode s2, hnil]
      rfl
  case isFalse hemp =>
      rw [List.filterMap_map, ← filterMap_opt_rows _ s2.stationCode s2]
      apply List.filterMap_congr
      intro r _
      obtain ⟨o, s1⟩ := r
      cases o <;> rfl

/-- C8: when the station lookup's codes are distinct and the input table has
no missing values (structural here), `merge_to_stations` returns — up to row
order, which the right joins shuffle — exactly the input rows whose origin
and destination codes both appear in the station lookup, each annotated with
the resolved `from_stn_zone_id` / `to_stn_zone_id`; rows referencing unknown
codes are dropped and no lookup-only row survives the `dropna`. -/
theorem C8_merge_right_join (stations_lookup : List StationRow) (df : List FactorRow)
    (hnd : (stations_lookup.map fun s => s.stationCode).Nodup) :
    (merge_to_stations stations_lookup df).Perm
      ((df.filter fun d =>
          (d.zoneCodeFrom ∈ stations_lookup.map fun s => s.stationCode)
          ∧ (d.zoneCodeTo ∈ stations_lookup.map fun s => s.stationCode)).map
        fun d =>
          ⟨d.zoneCodeFrom, d.zoneCodeTo, d.purpose, d.ticketType, d.demandRate,
            ((findStation stations_lookup d.zoneCodeFrom).map fun s => s.stnZoneId).getD 0,
            ((findStation stations_lookup d.zoneCodeTo).map fun s => s.stnZoneId).getD 0⟩) := by
  rw [merge_to_stations_eq]
  have h2 := right_join_perm stations_lookup hnd
    ((mergeFromStations stations_lookup df).filterMap fun r => r.1.map fun d => (d, r.2))
    (fun e => e.1.zoneCodeTo)
    (fun e s2 => (⟨e.1.zoneCodeFrom, e.1.zoneCodeTo, e.1.purpose, e.1.ticketType,
      e.1.demandRate, e.2.stnZoneId, s2.stnZoneId⟩ : StnFactorRow)) ⟨"", 0⟩
  refine h2.trans ?_
  have h1 := right_join_perm stations_lookup hnd df (fun d => d.zoneCodeFrom)
    (fun d s => (d, s)) ⟨"", 0⟩
  have hm1 : (((mergeFromStations stations_lookup df).filterMap
      fun r => r.1.map fun d => (d, r.2))).Perm
      ((df.filter fun d => d.zoneCodeFrom ∈ stations_lookup.map fun s => s.stationCode).map
        fun d => (d, (findStation stations_lookup d.zoneCodeFrom).getD ⟨"", 0⟩)) := by
    rw [mergeFrom_extract]
    exact h1
  refine ((hm1.filter _).map _).trans ?_
  apply List.Perm.of_eq
  rw [List.filter_map, List.map_map, List.filter_filter]
  congr 1
  · funext d
    cases hff : findStation stations_lookup d.zoneCodeFrom <;>
      cases hft : findStation stations_lookup d.zoneCodeTo <;>
      simp [Function.comp, hff, hft]
  · apply List.filter_congr
    intro d _
    by_cases h1 : d.zoneCodeFrom ∈ stations_lookup.map fun s => s.stationCode <;>
      by_cases h2 : d.zoneCodeTo ∈ stations_lookup.map fun s => s.stationCode <;>
        simp [Function.comp, h1, h2]

theorem C8_merge_right_join_witness :
    (merge_to_stations [⟨"AAA", 1⟩, ⟨"BBB", 2⟩]
        [⟨"AAA", "BBB", 1, "F", 5⟩, ⟨"AAA", "ZZZ", 1, "F", 7⟩]).Perm
      ((([⟨"AAA", "BBB", 1, "F", 5⟩, ⟨"AAA", "ZZZ", 1, "F", 7⟩] : List FactorRow).filter
          fun d =>
            (d.zoneCodeFrom ∈ ([⟨"AAA", 1⟩, ⟨"BBB", 2⟩] : List StationRow).map
              fun s => s.stationCode)
            ∧ (d.zoneCodeTo ∈ ([⟨"AAA", 1⟩, ⟨"BBB", 2⟩] : List StationRow).map
              fun s => s.stationCode)).map
        fun d =>
          ⟨d.zoneCodeFrom, d.zoneCodeTo, d.purpose, d.ticketType, d.demandRate,
            ((findStation [⟨"AAA", 1⟩, ⟨"BBB", 2⟩] d.zoneCodeFrom).map
              fun s => s.stnZoneId).getD 0,
            ((findStation [⟨"AAA", 1⟩, ⟨"BBB", 2⟩] d.zoneCodeTo).map
              fun s => s.stnZoneId).getD 0⟩) :=
  C8_merge_right_join [⟨"AAA", 1⟩, ⟨"BBB", 2⟩]
    [⟨"AAA", "BBB", 1, "F", 5⟩, ⟨"AAA", "ZZZ", 1, "F", 7⟩] (by decide)

/-- The rational carried by a finite float (0 for the special values). -/
def toQ : FloatVal → ℚ
  | FloatVal.fin q => q
  | _ => 0

theorem all_fin_eq_map (l : List FloatVal) (h : ∀ v ∈ l, ∃ q, v = FloatVal.fin q) :
    l = (l.map toQ).map FloatVal.fin := by
  rw [List.map_map]
  conv_lhs => rw [← List.map_id l]
  apply List.map_congr_left
  intro v hv
  rcases h v hv with ⟨q, rfl⟩
  rfl

theorem floatSum_all_fin (l : List FloatVal) (h : ∀ v ∈ l, ∃ q, v = FloatVal.fin q) :
    floatSum l = FloatVal.fin ((l.map toQ).sum) := by
  conv_lhs => rw [all_fin_eq_map l h]
  exact floatSum_map_fin _

theorem nodup_same_mem_perm {α : Type} [DecidableEq α] (l1 l2 : List α)
    (h1 : l1.Nodup) (h2 : l2.Nodup) (hm : ∀ a, a ∈ l1 ↔ a ∈ l2) : l1.Perm l2 := by
  apply List.perm_of_nodup_nodup_toFinset_eq h1 h2
  apply Finset.ext
  intro a
  rw [List.mem_toFinset, List.mem_toFinset]
  exact hm a

/-- The row axis a complete in-range table produces: sorted distinct keys
with the same members as `idRange S`, hence `S` of them. -/
theorem pivot_axis_length (ks : List ℤ) (S : ℕ)
    (hin : ∀ a ∈ ks, 1 ≤ a ∧ a ≤ (S : ℤ))
    (hcov : ∀ a : ℤ, 1 ≤ a → a ≤ (S : ℤ) → a ∈ ks) :
    (sortedKeysZ ks).length = S := by
  have hperm : (sortedKeysZ ks).Perm (idRange S) := by
    apply nodup_same_mem_perm _ _ (nodup_sortedKeysZ ks) (nodup_idRange S)
    intro a
    rw [mem_sortedKeysZ, mem_idRange]
    constructor
    · intro ha
      exact hin a ha
    · intro ha
      exact hcov a ha.1 ha.2
  rw [hperm.length_eq]
  simp [idRange]

/-- For a row set with grid-bounded keys covering every grid pair and finite
values, `pivotCell` produces a finite value at every axis position. -/
theorem pivotCell_fin (l : List (ℤ × ℤ × FloatVal)) (S : ℕ) (r c : ℤ)
    (hkeys : ∀ t ∈ l, (t.1, t.2.1) ∈ gridPairs S)
    (hcov : ∀ p ∈ gridPairs S, ∃ t ∈ l, t.1 = p.1 ∧ t.2.1 = p.2)
    (hfin : ∀ t ∈ l, ∃ q, t.2.2 = FloatVal.fin q)
    (hr : 1 ≤ r ∧ r ≤ (S : ℤ)) (hc : 1 ≤ c ∧ c ≤ (S : ℤ)) :
    pivotCell l r c
      = FloatVal.fin (((((l.filter fun t => t.1 = r ∧ t.2.1 = c).map
          fun t => t.2.2).filter fun v => ¬ v = FloatVal.nan).map toQ).sum
        / ((((l.filter fun t => t.1 = r ∧ t.2.1 = c).map
          fun t => t.2.2).filter fun v => ¬ v = FloatVal.nan).length : ℚ)) := by
  have hrc : ((r, c) : ℤ × ℤ) ∈ gridPairs S := by
    rw [mem_gridPairs]
    exact ⟨hr.1, hr.2, hc.1, hc.2⟩
  rcases hcov (r, c) hrc with ⟨t, htl, ht1, ht2⟩
  rcases hfin t htl with ⟨q, htq⟩
  have htmem : t ∈ l.filter fun t2 => t2.1 = r ∧ t2.2.1 = c := by
    rw [List.mem_filter]
    exact ⟨htl, by simp [ht1, ht2]⟩
  have hvmem : FloatVal.fin q ∈ ((l.filter fun t2 => t2.1 = r ∧ t2.2.1 = c).map
      fun t2 => t2.2.2).filter fun v => ¬ v = FloatVal.nan := by
    rw [List.mem_filter]
    refine ⟨?_, by simp⟩
    rw [← htq]
    exact List.mem_map_of_mem _ htmem
  have hne : ¬ (((l.filter fun t2 => t2.1 = r ∧ t2.2.1 = c).map
      fun t2 => t2.2.2).filter fun v => ¬ v = FloatVal.nan).isEmpty = true := by
    intro hemp
    rw [List.isEmpty_iff.mp hemp] at hvmem
    cases hvmem
  have hallfin : ∀ v ∈ ((l.filter fun t2 => t2.1 = r ∧ t2.2.1 = c).map
      fun t2 => t2.2.2).filter fun v => ¬ v = FloatVal.nan, ∃ q2, v = FloatVal.fin q2 := by
    intro v hv
    rcases List.mem_map.mp (List.mem_filter.mp hv).1 with ⟨t2, ht2l, rfl⟩
    exact hfin t2 (List.mem_filter.mp ht2l).1
  unfold pivotCell
  rw [if_neg hne]
  unfold floatMean
  rw [floatSum_all_fin _ hallfin]
  apply FloatVal.div_fin_fin
  intro hzero
  have hlen : (((l.filter fun t2 => t2.1 = r ∧ t2.2.1 = c).map
      fun t2 => t2.2.2).filter fun v => ¬ v = FloatVal.nan).length = 0 := by
    exact_mod_cast hzero
  rw [List.length_eq_zero.mp hlen] at hvmem
  cases hvmem

/-- The central pivot shape lemma: if every key pair of the long table lies
on the `S` grid, every grid pair is covered and every value is finite, the
pivoted matrix is a dense `S`-by-`S` array of finite values, all zero when
every input value is zero. -/
theorem pivot_complete_grid (l : List (ℤ × ℤ × FloatVal)) (S : ℕ)
    (hkeys : ∀ t ∈ l, (t.1, t.2.1) ∈ gridPairs S)
    (hcov : ∀ p ∈ gridPairs S, ∃ t ∈ l, t.1 = p.1 ∧ t.2.1 = p.2)
    (hfin : ∀ t ∈ l, ∃ q, t.2.2 = FloatVal.fin q) :
    (long_mx_2_wide_mx l).length = S
    ∧ (∀ row ∈ long_mx_2_wide_mx l, row.length = S)
    ∧ (∀ row ∈ long_mx_2_wide_mx l, ∀ v ∈ row, ∃ q, v = FloatVal.fin q)
    ∧ ((∀ t ∈ l, t.2.2 = FloatVal.fin 0) →
        long_mx_2_wide_mx l = List.replicate S (List.replicate S (FloatVal.fin 0))) := by
  have hrbound : ∀ a ∈ l.map fun t => t.1, 1 ≤ a ∧ a ≤ (S : ℤ) := by
    intro a ha
    rcases List.mem_map.mp ha with ⟨t, htl, rfl⟩
    have := (mem_gridPairs S (t.1, t.2.1)).mp (hkeys t htl)
    exact ⟨this.1, this.2.1⟩
  have hcbound : ∀ a ∈ l.map fun t => t.2.1, 1 ≤ a ∧ a ≤ (S : ℤ) := by
    intro a ha
    rcases List.mem_map.mp ha with ⟨t, htl, rfl⟩
    have := (mem_gridPairs S (t.1, t.2.1)).mp (hkeys t htl)
    exact ⟨this.2.2.1, this.2.2.2⟩
  have hrcov : ∀ a : ℤ, 1 ≤ a → a ≤ (S : ℤ) → a ∈ l.map fun t => t.1 := by
    intro a h1 h2
    have hS : 1 ≤ (S : ℤ) := le_trans h1 h2
    have hg : ((a, 1) : ℤ × ℤ) ∈ gridPairs S := by
      rw [mem_gridPairs]
      exact ⟨h1, h2, le_refl 1, hS⟩
    rcases hcov (a, 1) hg with ⟨t, htl, ht1, _⟩
    have ht1r : t.1 = a := ht1
    rw [← ht1r]
    exact List.mem_map_of_mem _ htl
  have hccov : ∀ a : ℤ, 1 ≤ a → a ≤ (S : ℤ) → a ∈ l.map fun t => t.2.1 := by
    intro a h1 h2
    have hS : 1 ≤ (S : ℤ) := le_trans h1 h2
    have hg : ((1, a) : ℤ × ℤ) ∈ gridPairs S := by
      rw [mem_gridPairs]
      exact ⟨le_refl 1, hS, h1, h2⟩
    rcases hcov (1, a) hg with ⟨t, htl, _, ht2⟩
    have ht2r : t.2.1 = a := ht2
    rw [← ht2r]
    exact List.mem_map_of_mem _ htl
  have hrlen : (sortedKeysZ (l.map fun t => t.1)).length = S :=
    pivot_axis_length _ S hrbound hrcov
  have hclen : (sortedKeysZ (l.map fun t => t.2.1)).length = S :=
    pivot_axis_length _ S hcbound hccov
  have hcellfin : ∀ r ∈ sortedKeysZ (l.map fun t => t.1),
      ∀ c ∈ sortedKeysZ (l.map fun t => t.2.1), ∃ q, pivotCell l r c = FloatVal.fin q := by
    intro r hr c hc
    rw [mem_sortedKeysZ] at hr hc
    exact ⟨_, pivotCell_fin l S r c hkeys hcov hfin (hrbound r hr) (hcbound c hc)⟩
  have hdrop : long_mx_2_wide_mx l
      = (sortedKeysZ (l.map fun t => t.1)).map fun r =>
          (sortedKeysZ (l.map fun t => t.2.1)).map fun c => pivotCell l r c := by
    unfold long_mx_2_wide_mx
    apply dropNaNCols_of_no_nan _ (sortedKeysZ (l.map fun t => t.2.1)).length
    · intro row hrow
      rcases List.mem_map.mp hrow with ⟨r, _, rfl⟩
      simp
    · intro row hrow v hv
      rcases List.mem_map.mp hrow with ⟨r, hrm, rfl⟩
      rcases List.mem_map.mp hv with ⟨c, hcm, rfl⟩
      rcases hcellfin r hrm c hcm with ⟨q, hq⟩
      rw [hq]
      simp
  refine ⟨?_, ?_, ?_, ?_⟩
  · rw [hdrop, List.length_map, hrlen]
  · intro row hrow
    rw [hdrop] at hrow
    rcases List.mem_map.mp hrow with ⟨r, _, rfl⟩
    rw [List.length_map, hclen]
  · intro row hrow v hv
    rw [hdrop] at hrow
    rcases List.mem_map.mp hrow with ⟨r, hrm, rfl⟩
    rcases List.mem_map.mp hv with ⟨c, hcm, rfl⟩
    exact hcellfin r hrm c hcm
  · intro hzero
    rw [hdrop]
    rw [List.eq_replicate_iff]
    refine ⟨by rw [List.length_map, hrlen], ?_⟩
    intro row hrow
    rcases List.mem_map.mp hrow with ⟨r, hrm, rfl⟩
    rw [List.eq_replicate_iff]
    refine ⟨by rw [List.length_map, hclen], ?_⟩
    intro v hv
    rcases List.mem_map.mp hv with ⟨c, hcm, rfl⟩
    rw [mem_sortedKeysZ] at hrm hcm
    rw [pivotCell_fin l S r c hkeys hcov hfin (hrbound r hrm) (hcbound c hcm)]
    have hzsum : (((((l.filter fun t => t.1 = r ∧ t.2.1 = c).map
        fun t => t.2.2).filter fun v2 => ¬ v2 = FloatVal.nan).map toQ)).sum = 0 := by
      apply List.sum_eq_zero
      intro x hx
      rcases List.mem_map.mp hx with ⟨v2, hv2, rfl⟩
      rcases List.mem_map.mp (List.mem_filter.mp hv2).1 with ⟨t2, ht2, rfl⟩
      rw [hzero t2 (List.mem_filter.mp ht2).1]
      rfl
    rw [hzsum]
    rw [zero_div]

/-- When every input key pair is resolved (non-NaN) and on the grid, the
outer merge of the station expansion appends nothing, and its output covers
the grid with grid-bounded keys and finite values — all zero when the input
is empty. -/
theorem expand_stn_props (tr : List (Option ℤ × Option ℤ × FloatVal)) (S : ℕ)
    (hkeys : ∀ t ∈ tr, ∃ a b, t.1 = some a ∧ t.2.1 = some b
      ∧ ((a, b) : ℤ × ℤ) ∈ gridPairs S)
    (hfin : ∀ t ∈ tr, ∃ q, t.2.2 = FloatVal.fin q) :
    (∀ t ∈ expand_matrix_stn tr S, ((t.1, t.2.1) : ℤ × ℤ) ∈ gridPairs S)
    ∧ (∀ p ∈ gridPairs S, ∃ t ∈ expand_matrix_stn tr S, t.1 = p.1 ∧ t.2.1 = p.2)
    ∧ (∀ t ∈ expand_matrix_stn tr S, ∃ q, t.2.2 = FloatVal.fin q)
    ∧ (tr = [] → ∀ t ∈ expand_matrix_stn tr S, t.2.2 = FloatVal.fin 0) := by
  have happ : (tr.filter fun t =>
      ¬ ∃ p ∈ gridPairs S, t.1 = some p.1 ∧ t.2.1 = some p.2) = [] := by
    rw [List.filter_eq_nil_iff]
    intro t ht
    rcases hkeys t ht with ⟨a, b, h1, h2, hg⟩
    simp only [decide_not, Bool.not_eq_true', decide_eq_false_iff_not, not_not]
    exact ⟨(a, b), hg, by simp [h1, h2]⟩
  have hflat : expand_matrix_stn tr S
      = (gridPairs S).flatMap fun p =>
          let ms := tr.filter fun t => t.1 = some p.1 ∧ t.2.1 = some p.2
          if ms.isEmpty then [(p.1, p.2, FloatVal.fin 0)]
          else ms.map fun t => (p.1, p.2, t.2.2.fillna0) := by
    unfold expand_matrix_stn
    rw [happ]
    simp
  have hmem : ∀ t ∈ expand_matrix_stn tr S, ∃ p ∈ gridPairs S,
      t.1 = p.1 ∧ t.2.1 = p.2 ∧ (t.2.2 = FloatVal.fin 0 ∨
        ∃ t2 ∈ tr, t.2.2 = (t2.2.2).fillna0) := by
    intro t ht
    rw [hflat] at ht
    rcases List.mem_flatMap.mp ht with ⟨p, hp, htin⟩
    dsimp only at htin
    split at htin
    · rcases List.mem_singleton.mp htin with rfl
      exact ⟨p, hp, rfl, rfl, Or.inl rfl⟩
    · rcases List.mem_map.mp htin with ⟨t2, ht2, rfl⟩
      exact ⟨p, hp, rfl, rfl, Or.inr ⟨t2, (List.mem_filter.mp ht2).1, rfl⟩⟩
  refine ⟨?_, ?_, ?_, ?_⟩
  · intro t ht
    rcases hmem t ht with ⟨p, hp, h1, h2, _⟩
    rw [h1, h2]
    exact hp
  · intro p hp
    rw [hflat]
    by_cases hemp : (tr.filter fun t => t.1 = some p.1 ∧ t.2.1 = some p.2).isEmpty = true
    · refine ⟨(p.1, p.2, FloatVal.fin 0), ?_, rfl, rfl⟩
      apply List.mem_flatMap.mpr
      refine ⟨p, hp, ?_⟩
      dsimp only
      rw [if_pos hemp]
      simp
    · cases hms : tr.filter fun t => t.1 = some p.1 ∧ t.2.1 = some p.2 with
      | nil => rw [hms] at hemp; simp at hemp
      | cons m rest =>
          refine ⟨(p.1, p.2, (m.2.2).fillna0), ?_, rfl, rfl⟩
          apply List.mem_flatMap.mpr
          refine ⟨p, hp, ?_⟩
          dsimp only
          rw [if_neg hemp, hms]
          simp
  · intro t ht
    rcases hmem t ht with ⟨p, _, _, _, hval | ⟨t2, ht2, hval⟩⟩
    · exact ⟨0, hval⟩
    · rcases hfin t2 ht2 with ⟨q, hq⟩
      rw [hval, hq]
      exact ⟨q, rfl⟩
  · intro htr t ht
    rcases hmem t ht with ⟨p, _, _, _, hval | ⟨t2, ht2, _⟩⟩
    · exact hval
    · rw [htr] at ht2
      cases ht2

/-- C6: `prepare_growth_matrices` returns exactly one dense matrix per
(purpose, ticket type) pair with purposes and ticket types those occurring
in the inputs; all matrices are `S`-by-`S` where `S` is the number of
stations in the lookup (whose identifiers are the dense space `1..S` per the
data model); a combination matched by no resolved growth record yields the
all-zero `S`-by-`S` matrix. -/
theorem C6_prepare_shapes (demand_segments : List SegRow) (factors : List FactorRow)
    (stations_lookup : List StationRow)
    (hid : ∀ s ∈ stations_lookup,
      1 ≤ s.stnZoneId ∧ s.stnZoneId ≤ (stations_lookup.length : ℤ)) :
    ((prepare_growth_matrices demand_segments factors stations_lookup).map fun e => e.1)
      = uniqueList (demand_segments.map fun r => r.purpose)
    ∧ ∀ e ∈ prepare_growth_matrices demand_segments factors stations_lookup,
        (e.2.map fun te => te.1) = uniqueList (factors.map fun r => r.ticketType)
        ∧ ∀ te ∈ e.2,
          te.2.length = stations_lookup.length
          ∧ (∀ row ∈ te.2, row.length = stations_lookup.length)
          ∧ ((∀ r2 ∈ merge_to_stations stations_lookup factors,
                ¬ (r2.purpose = e.1 ∧ r2.ticketType = te.1)) →
              te.2 = List.replicate stations_lookup.length
                (List.replicate stations_lookup.length (FloatVal.fin 0))) := by
  constructor
  · unfold prepare_growth_matrices
    dsimp only
    rw [List.map_map]
    exact (List.map_congr_left fun p hp => rfl).trans (List.map_id _)
  · intro e he
    unfold prepare_growth_matrices at he
    dsimp only at he
    rcases List.mem_map.mp he with ⟨p, hp, rfl⟩
    constructor
    · rw [List.map_map]
      exact (List.map_congr_left fun t ht => rfl).trans (List.map_id _)
    · intro te hte
      rcases List.mem_map.mp hte with ⟨t, ht, rfl⟩
      dsimp only
      have hkeys : ∀ tr ∈ (((merge_to_stations stations_lookup factors).filter
            fun r => r.purpose = p ∧ r.ticketType = t).map
          fun r => ((some r.from_stn_zone_id, some r.to_stn_zone_id,
            FloatVal.fin r.demand) : Option ℤ × Option ℤ × FloatVal)),
          ∃ a b, tr.1 = some a ∧ tr.2.1 = some b
            ∧ ((a, b) : ℤ × ℤ) ∈ gridPairs stations_lookup.length := by
        intro tr htr
        rcases List.mem_map.mp htr with ⟨r, hr, rfl⟩
        have hr2 := merge_to_stations_ids stations_lookup factors r
          (List.mem_filter.mp hr).1
        rcases hr2.1 with ⟨s1, hs1, hid1⟩
        rcases hr2.2.1 with ⟨s2, hs2, hid2⟩
        refine ⟨r.from_stn_zone_id, r.to_stn_zone_id, rfl, rfl, ?_⟩
        rw [mem_gridPairs]
        have hb1 := hid s1 hs1
        have hb2 := hid s2 hs2
        rw [hid1, hid2]
        exact ⟨hb1.1, hb1.2, hb2.1, hb2.2⟩
      have hfin : ∀ tr ∈ (((merge_to_stations stations_lookup factors).filter
            fun r => r.purpose = p ∧ r.ticketType = t).map
          fun r => ((some r.from_stn_zone_id, some r.to_stn_zone_id,
            FloatVal.fin r.demand) : Option ℤ × Option ℤ × FloatVal)),
          ∃ q, tr.2.2 = FloatVal.fin q := by
        intro tr htr
        rcases List.mem_map.mp htr with ⟨r, _, rfl⟩
        exact ⟨r.demand, rfl⟩
      obtain ⟨hk2, hc2, hf2, hz2⟩ := expand_stn_props _ stations_lookup.length hkeys hfin
      obtain ⟨hlen, hrows, _, hzero⟩ := pivot_complete_grid _ stations_lookup.length
        hk2 hc2 hf2
      refine ⟨hlen, hrows, ?_⟩
      intro hnone
      apply hzero
      apply hz2
      rw [List.map_eq_nil_iff, List.filter_eq_nil_iff]
      intro r2 hr2
      have := hnone r2 hr2
      simpa using this

theorem C6_prepare_shapes_witness :
    ((prepare_growth_matrices [⟨1⟩] [⟨"A", "B", 1, "F", 2⟩] [⟨"A", 1⟩, ⟨"B", 2⟩]).map
      fun e => e.1) = uniqueList (([⟨1⟩] : List SegRow).map fun r => r.purpose) :=
  (C6_prepare_shapes [⟨1⟩] [⟨"A", "B", 1, "F", 2⟩] [⟨"A", 1⟩, ⟨"B", 2⟩] (by decide)).1

theorem groupbySum_keys (l : List (ℤ × ℤ × FloatVal)) :
    ((groupbySum l).map fun t => (t.1, t.2.1)) = sortedKeysP (l.map fun t => (t.1, t.2.1)) := by
  unfold groupbySum
  rw [List.map_map]
  exact (List.map_congr_left fun k hk => rfl).trans (List.map_id _)

theorem groupbySum_nodup_keys (l : List (ℤ × ℤ × FloatVal)) :
    ((groupbySum l).map fun t => (t.1, t.2.1)).Nodup := by
  rw [groupbySum_keys]
  exact nodup_sortedKeysP _

theorem mem_groupbySum (l : List (ℤ × ℤ × FloatVal)) (g : ℤ × ℤ × FloatVal)
    (hg : g ∈ groupbySum l) :
    ((g.1, g.2.1) ∈ l.map fun t => (t.1, t.2.1))
    ∧ g.2.2 = floatSum ((l.filter fun t => t.1 = g.1 ∧ t.2.1 = g.2.1).map fun t => t.2.2) := by
  unfold groupbySum at hg
  rcases List.mem_map.mp hg with ⟨k, hk, rfl⟩
  rw [mem_sortedKeysP] at hk
  exact ⟨hk, rfl⟩

theorem groupbySum_covers (l : List (ℤ × ℤ × FloatVal)) (k : ℤ × ℤ)
    (hk : k ∈ l.map fun t => (t.1, t.2.1)) :
    ∃ g ∈ groupbySum l, g.1 = k.1 ∧ g.2.1 = k.2 := by
  unfold groupbySum
  exact ⟨(k.1, k.2, floatSum ((l.filter fun t => t.1 = k.1 ∧ t.2.1 = k.2).map fun t => t.2.2)),
    List.mem_map.mpr ⟨k, (mem_sortedKeysP _ _).mpr hk, rfl⟩, rfl, rfl⟩

theorem groupbySum_fin (l : List (ℤ × ℤ × FloatVal))
    (hfin : ∀ t ∈ l, ∃ q, t.2.2 = FloatVal.fin q) :
    ∀ g ∈ groupbySum l, ∃ q, g.2.2 = FloatVal.fin q := by
  intro g hg
  rw [(mem_groupbySum l g hg).2]
  refine ⟨_, floatSum_all_fin _ ?_⟩
  intro v hv
  rcases List.mem_map.mp hv with ⟨t, ht, rfl⟩
  exact hfin t (List.mem_filter.mp ht).1

/-- Grouping then summing conserves the (finite) total. -/
theorem groupbySum_total (l : List (ℤ × ℤ × FloatVal))
    (hfin : ∀ t ∈ l, ∃ q, t.2.2 = FloatVal.fin q) :
    ((groupbySum l).map fun t => toQ t.2.2).sum = (l.map fun t => toQ t.2.2).sum := by
  unfold groupbySum
  rw [List.map_map]
  have hcg : ∀ k ∈ sortedKeysP (l.map fun t => (t.1, t.2.1)),
      ((fun t : ℤ × ℤ × FloatVal => toQ t.2.2) ∘ fun k2 : ℤ × ℤ => (k2.1, k2.2,
        floatSum ((l.filter fun t => t.1 = k2.1 ∧ t.2.1 = k2.2).map fun t => t.2.2))) k
      = ((l.filter fun t => (t.1, t.2.1) = k).map fun t => toQ t.2.2).sum := by
    intro k _
    have hgfin : ∀ v ∈ (l.filter fun t => t.1 = k.1 ∧ t.2.1 = k.2).map fun t => t.2.2,
        ∃ q, v = FloatVal.fin q := by
      intro v hv
      rcases List.mem_map.mp hv with ⟨t, ht, rfl⟩
      exact hfin t (List.mem_filter.mp ht).1
    show toQ (floatSum ((l.filter fun t => t.1 = k.1 ∧ t.2.1 = k.2).map fun t => t.2.2)) = _
    rw [floatSum_all_fin _ hgfin]
    show (((l.filter fun t => t.1 = k.1 ∧ t.2.1 = k.2).map fun t => t.2.2).map toQ).sum = _
    rw [List.map_map]
    congr 1
    apply congrArg
    apply List.filter_congr
    intro t _
    rcases k with ⟨k1, k2⟩
    by_cases h1 : t.1 = k1 <;> by_cases h2 : t.2.1 = k2 <;> simp [h1, h2, Prod.ext_iff]
  rw [List.map_congr_left hcg]
  apply sum_keys_filter (sortedKeysP (l.map fun t => (t.1, t.2.1))) l
    (fun t => (t.1, t.2.1)) (fun t => toQ t.2.2) (nodup_sortedKeysP _)
  intro t ht
  exact (mem_sortedKeysP _ _).mpr (List.mem_map_of_mem _ ht)

theorem filter_key_singleton {α κ : Type} [DecidableEq κ] (l : List α) (key : α → κ)
    (hnd : (l.map key).Nodup) (t : α) (ht : t ∈ l) :
    l.filter (fun a => key a = key t) = [t] := by
  induction l with
  | nil => cases ht
  | cons a rest ih =>
      rw [List.map_cons, List.nodup_cons] at hnd
      rcases List.mem_cons.mp ht with rfl | htr
      · rw [List.filter_cons, if_pos (by simp)]
        have hrest : rest.filter (fun a2 => key a2 = key t) = [] := by
          rw [List.filter_eq_nil_iff]
          intro b hb hkb
          exact hnd.1 ((of_decide_eq_true hkb) ▸ List.mem_map_of_mem key hb)
        rw [hrest]
      · have hne : ¬ key a = key t := by
          intro h
          exact hnd.1 (h ▸ List.mem_map_of_mem key htr)
        rw [List.filter_cons, if_neg (by simpa using hne)]
        exact ih hnd.2 htr

theorem sum_map_product {κ1 κ2 : Type} (rs : List κ1) (cs : List κ2) (f : κ1 → κ2 → ℚ) :
    ((rs ×ˢ cs).map fun k => f k.1 k.2).sum
      = (rs.map fun r => ((cs.map fun c => f r c)).sum).sum := by
  show ((rs.flatMap fun r => cs.map fun c => (r, c)).map fun k => f k.1 k.2).sum = _
  rw [sum_map_flatMap]
  congr 1
  apply List.map_congr_left
  intro r _
  rw [List.map_map]
  rfl

theorem sum_flatMap_q {α : Type} (l : List α) (f : α → List ℚ) :
    (l.flatMap f).sum = (l.map fun a => (f a).sum).sum := by
  induction l with
  | nil => simp
  | cons a t ih => simp [List.flatMap_cons, List.sum_append, ih]

/-- When the keys are additionally distinct, the pivoted complete grid's
entry total is the table's value total. -/
theorem pivot_complete_grid_total (l : List (ℤ × ℤ × FloatVal)) (S : ℕ)
    (hkeys : ∀ t ∈ l, (t.1, t.2.1) ∈ gridPairs S)
    (hcov : ∀ p ∈ gridPairs S, ∃ t ∈ l, t.1 = p.1 ∧ t.2.1 = p.2)
    (hfin : ∀ t ∈ l, ∃ q, t.2.2 = FloatVal.fin q)
    (hnd : (l.map fun t => (t.1, t.2.1)).Nodup) :
    floatTotal (long_mx_2_wide_mx l)
      = FloatVal.fin ((l.map fun t => toQ t.2.2).sum) := by
  have hrbound : ∀ a ∈ l.map fun t => t.1, 1 ≤ a ∧ a ≤ (S : ℤ) := by
    intro a ha
    rcases List.mem_map.mp ha with ⟨t, htl, rfl⟩
    have := (mem_gridPairs S (t.1, t.2.1)).mp (hkeys t htl)
    exact ⟨this.1, this.2.1⟩
  have hcbound : ∀ a ∈ l.map fun t => t.2.1, 1 ≤ a ∧ a ≤ (S : ℤ) := by
    intro a ha
    rcases List.mem_map.mp ha with ⟨t, htl, rfl⟩
    have := (mem_gridPairs S (t.1, t.2.1)).mp (hkeys t htl)
    exact ⟨this.2.2.1, this.2.2.2⟩
  have hcellq : ∀ r ∈ sortedKeysZ (l.map fun t => t.1),
      ∀ c ∈ sortedKeysZ (l.map fun t => t.2.1),
      ∃ t ∈ l, t.1 = r ∧ t.2.1 = c ∧ pivotCell l r c = FloatVal.fin (toQ t.2.2)
        ∧ (l.filter fun t2 => (t2.1, t2.2.1) = (r, c)) = [t] := by
    intro r hr c hc
    rw [mem_sortedKeysZ] at hr hc
    have hrg : ((r, c) : ℤ × ℤ) ∈ gridPairs S := by
      rw [mem_gridPairs]
      have h1 := hrbound r hr
      have h2 := hcbound c hc
      exact ⟨h1.1, h1.2, h2.1, h2.2⟩
    rcases hcov (r, c) hrg with ⟨t, htl, ht1, ht2⟩
    have ht1r : t.1 = r := ht1
    have ht2r : t.2.1 = c := ht2
    have hsingle : (l.filter fun t2 => (t2.1, t2.2.1) = (r, c)) = [t] := by
      have h0 := filter_key_singleton l (fun t2 => (t2.1, t2.2.1)) hnd t htl
      simp only at h0
      rw [← ht1r, ← ht2r]
      exact h0
    have hsingle2 : (l.filter fun t2 => t2.1 = r ∧ t2.2.1 = c) = [t] := by
      rw [← hsingle]
      apply List.filter_congr
      intro t2 _
      by_cases hx1 : t2.1 = r <;> by_cases hx2 : t2.2.1 = c <;>
        simp [hx1, hx2, Prod.ext_iff]
    rcases hfin t htl with ⟨q, hq⟩
    refine ⟨t, htl, ht1r, ht2r, ?_, hsingle⟩
    unfold pivotCell
    rw [hsingle2]
    have hvs : (([t].map fun t2 => t2.2.2).filter fun v => ¬ v = FloatVal.nan)
        = [FloatVal.fin q] := by
      simp [hq]
    rw [hvs]
    rw [if_neg (by simp)]
    unfold floatMean
    rw [show floatSum [FloatVal.fin q] = FloatVal.fin q from by
      simp [floatSum, FloatVal.add]]
    rw [FloatVal.div_fin_fin q _ (by norm_num)]
    rw [hq]
    show FloatVal.fin (q / 1) = FloatVal.fin (toQ (FloatVal.fin q))
    rw [div_one]
    rfl
  have hdrop : long_mx_2_wide_mx l
      = (sortedKeysZ (l.map fun t => t.1)).map fun r =>
          (sortedKeysZ (l.map fun t => t.2.1)).map fun c => pivotCell l r c := by
    unfold long_mx_2_wide_mx
    apply dropNaNCols_of_no_nan _ (sortedKeysZ (l.map fun t => t.2.1)).length
    · intro row hrow
      rcases List.mem_map.mp hrow with ⟨r, _, rfl⟩
      simp
    · intro row hrow v hv
      rcases List.mem_map.mp hrow with ⟨r, hrm, rfl⟩
      rcases List.mem_map.mp hv with ⟨c, hcm, rfl⟩
      rcases hcellq r hrm c hcm with ⟨t, _, _, _, hcell, _⟩
      rw [hcell]
      simp
  rw [hdrop]
  unfold floatTotal
  have hflat : ((sortedKeysZ (l.map fun t => t.1)).map fun r =>
      (sortedKeysZ (l.map fun t => t.2.1)).map fun c => pivotCell l r c).flatten
      = (sortedKeysZ (l.map fun t => t.1)).flatMap fun r =>
        (sortedKeysZ (l.map fun t => t.2.1)).map fun c => pivotCell l r c := by
    rw [List.flatMap_def]
  rw [hflat]
  have hallfin : ∀ v ∈ (sortedKeysZ (l.map fun t => t.1)).flatMap fun r =>
      (sortedKeysZ (l.map fun t => t.2.1)).map fun c => pivotCell l r c,
      ∃ q, v = FloatVal.fin q := by
    intro v hv
    rcases List.mem_flatMap.mp hv with ⟨r, hrm, hv2⟩
    rcases List.mem_map.mp hv2 with ⟨c, hcm, rfl⟩
    rcases hcellq r hrm c hcm with ⟨t, _, _, _, hcell, _⟩
    exact ⟨toQ t.2.2, hcell⟩
  rw [floatSum_all_fin _ hallfin]
  congr 1
  rw [List.map_flatMap]
  rw [show ((sortedKeysZ (l.map fun t => t.1)).flatMap fun a =>
      ((sortedKeysZ (l.map fun t => t.2.1)).map fun c => pivotCell l a c).map toQ)
      = ((sortedKeysZ (l.map fun t => t.1)).flatMap fun a =>
        (sortedKeysZ (l.map fun t => t.2.1)).map fun c => toQ (pivotCell l a c)) from by
    apply flatMap_congr_mem
    intro a _
    rw [List.map_map]
    rfl]
  rw [sum_flatMap_q]
  have hrowsum : ∀ r ∈ sortedKeysZ (l.map fun t => t.1),
      (((sortedKeysZ (l.map fun t => t.2.1)).map fun c => toQ (pivotCell l r c))).sum
      = ((sortedKeysZ (l.map fun t => t.2.1)).map fun c =>
          ((l.filter fun t2 => (t2.1, t2.2.1) = (r, c)).map fun t2 => toQ t2.2.2).sum).sum := by
    intro r hrm
    congr 1
    apply List.map_congr_left
    intro c hcm
    rcases hcellq r hrm c hcm with ⟨t, _, _, _, hcell, hsingle⟩
    rw [hcell, hsingle]
    simp [toQ]
  rw [List.map_congr_left hrowsum]
  rw [← sum_map_product (sortedKeysZ (l.map fun t => t.1))
    (sortedKeysZ (l.map fun t => t.2.1))
    (fun r c => ((l.filter fun t2 => (t2.1, t2.2.1) = (r, c)).map fun t2 => toQ t2.2.2).sum)]
  have hprodeq : ((sortedKeysZ (l.map fun t => t.1) ×ˢ sortedKeysZ (l.map fun t => t.2.1)).map
      fun k => ((l.filter fun t2 => (t2.1, t2.2.1) = (k.1, k.2)).map fun t2 => toQ t2.2.2).sum)
      = ((sortedKeysZ (l.map fun t => t.1) ×ˢ sortedKeysZ (l.map fun t => t.2.1)).map
      fun k => ((l.filter fun t2 => (t2.1, t2.2.1) = k).map fun t2 => toQ t2.2.2).sum) := by
    apply List.map_congr_left
    intro k _
    rcases k with ⟨k1, k2⟩
    rfl
  rw [hprodeq]
  apply sum_keys_filter
  · exact List.Nodup.product (nodup_sortedKeysZ _) (nodup_sortedKeysZ _)
  · intro t ht
    apply List.pair_mem_product.mpr
    constructor
    · exact (mem_sortedKeysZ _ _).mpr (List.mem_map_of_mem _ ht)
    · exact (mem_sortedKeysZ _ _).mpr (List.mem_map_of_mem _ ht)

/-- The value a scaled row contributes to the station matrix: its (finite)
scaled demand when its station keys resolved, 0 otherwise (its NaN demand is
zero-filled by the downstream expansion). -/
def matScaled (r : ScaledRow) : ℚ :=
  match r.from_stn, r.to_stn with
  | some _, some _ => toQ r.demand
  | _, _ => 0

theorem mem_mergeProps (dm : List DemandRow) (props : List PropRow) (uc : ℤ)
    (r : MergedRow) (hr : r ∈ mergeProps dm props uc) :
    (∃ d ∈ dm, r.fromZone = d.fromZone ∧ r.toZone = d.toZone ∧ r.demand = d.demand)
    ∧ ((r.from_stn = none ∧ r.to_stn = none ∧ r.stn_from_zone = none)
        ∨ (∃ pr ∈ props, pr.userclass = uc ∧ r.from_stn = some pr.from_stn_zone_id
            ∧ r.to_stn = some pr.to_stn_zone_id ∧ r.stn_from_zone = some pr.proportion)) := by
  rcases List.mem_flatMap.mp hr with ⟨d, hd, hrin⟩
  dsimp only at hrin
  split at hrin
  · rcases List.mem_singleton.mp hrin with rfl
    exact ⟨⟨d, hd, rfl, rfl, rfl⟩, Or.inl ⟨rfl, rfl, rfl⟩⟩
  · rcases List.mem_map.mp hrin with ⟨pr, hpr, rfl⟩
    rcases List.mem_filter.mp hpr with ⟨hprl, hcond⟩
    have hcondp := of_decide_eq_true hcond
    exact ⟨⟨d, hd, rfl, rfl, rfl⟩, Or.inr ⟨pr, hprl, hcondp.2.2, rfl, rfl, rfl⟩⟩

/-- The total station-matrix contribution of the merged-and-scaled rows:
each demand row contributes its demand times the sum of its matching
proportions (zero when no probability row matches). -/
theorem mergeProps_matSum (dm : List DemandRow) (props : List PropRow) (uc : ℤ) :
    (((mergeProps dm props uc).map scaleDemand).map matScaled).sum
      = (dm.map fun d => d.demand
          * ((props.filter fun pr => pr.fromZone = d.fromZone ∧ pr.toZone = d.toZone
              ∧ pr.userclass = uc).map fun pr => pr.proportion).sum).sum := by
  unfold mergeProps
  rw [List.map_map, List.map_flatMap, sum_flatMap_q]
  congr 1
  apply List.map_congr_left
  intro d _
  dsimp only
  split
  next hemp =>
      rw [List.isEmpty_iff.mp hemp]
      simp [matScaled, scaleDemand]
  next hemp =>
      rw [List.map_map]
      have hpt : ∀ pr ∈ props.filter fun pr => pr.fromZone = d.fromZone
            ∧ pr.toZone = d.toZone ∧ pr.userclass = uc,
          ((matScaled ∘ scaleDemand) ∘ fun pr2 =>
            (⟨d.fromZone, d.toZone, d.demand, some pr2.from_stn_zone_id,
              some pr2.to_stn_zone_id, some pr2.proportion⟩ : MergedRow)) pr
          = d.demand * pr.proportion := by
        intro pr _
        rfl
      rw [List.map_congr_left hpt]
      exact List.sum_map_mul_left _ _ _

theorem sum_if_empty_zero2 {α β : Type} (ms : List α) (mk : α → β) (z : β) (v : β → ℚ)
    (hz : v z = 0) :
    ((if ms.isEmpty then [z] else ms.map mk).map v).sum = ((ms.map mk).map v).sum := by
  cases ms <;> simp [hz]

/-- Station-level expansion of a table whose rows either have fully NaN keys
(and NaN value) or resolved keys on the grid (and finite value): every output
row is a finite grid row or the `(0, 0)`-keyed zero sentinel, the grid is
covered, and the value total is conserved (NaN contributes nothing either
way). -/
theorem expand_stn_mixed (tr : List (Option ℤ × Option ℤ × FloatVal)) (S : ℕ)
    (hshape : ∀ t ∈ tr,
      (t.1 = none ∧ t.2.1 = none ∧ t.2.2 = FloatVal.nan)
      ∨ (∃ a b q, t.1 = some a ∧ t.2.1 = some b
          ∧ ((a, b) : ℤ × ℤ) ∈ gridPairs S ∧ t.2.2 = FloatVal.fin q)) :
    (∀ t ∈ expand_matrix_stn tr S,
        ((((t.1, t.2.1) : ℤ × ℤ) ∈ gridPairs S ∧ ∃ q, t.2.2 = FloatVal.fin q)
          ∨ (t.1 = 0 ∧ t.2.1 = 0 ∧ t.2.2 = FloatVal.fin 0)))
    ∧ (∀ p ∈ gridPairs S, ∃ t ∈ expand_matrix_stn tr S, t.1 = p.1 ∧ t.2.1 = p.2)
    ∧ ((expand_matrix_stn tr S).map fun t => toQ t.2.2).sum
        = (tr.map fun t => toQ t.2.2).sum := by
  have happmem : ∀ t ∈ tr.filter fun t =>
      ¬ ∃ p ∈ gridPairs S, t.1 = some p.1 ∧ t.2.1 = some p.2,
      t.1 = none ∧ t.2.1 = none ∧ t.2.2 = FloatVal.nan := by
    intro t ht
    rcases List.mem_filter.mp ht with ⟨htr, hpred⟩
    rcases hshape t htr with hcase | ⟨a, b, q, h1, h2, hg, _⟩
    · exact hcase
    · exfalso
      have : ∃ p ∈ gridPairs S, t.1 = some p.1 ∧ t.2.1 = some p.2 :=
        ⟨(a, b), hg, by simp [h1, h2]⟩
      simp only [decide_not, Bool.not_eq_true', decide_eq_false_iff_not] at hpred
      exact hpred this
  have hmsmem : ∀ p : ℤ × ℤ, ∀ t ∈ tr.filter fun t => t.1 = some p.1 ∧ t.2.1 = some p.2,
      ∃ q, t.2.2 = FloatVal.fin q := by
    intro p t ht
    rcases List.mem_filter.mp ht with ⟨htr, hpred⟩
    have hp := of_decide_eq_true hpred
    rcases hshape t htr with ⟨h1, _, _⟩ | ⟨a, b, q, _, _, _, hq⟩
    · rw [hp.1] at h1
      cases h1
    · exact ⟨q, hq⟩
  refine ⟨?_, ?_, ?_⟩
  · intro t ht
    unfold expand_matrix_stn at ht
    rcases List.mem_append.mp ht with hflat | happ
    · rcases List.mem_flatMap.mp hflat with ⟨p, hp, htin⟩
      dsimp only at htin
      split at htin
      · rcases List.mem_singleton.mp htin with rfl
        exact Or.inl ⟨hp, 0, rfl⟩
      · rcases List.mem_map.mp htin with ⟨t2, ht2, rfl⟩
        rcases hmsmem p t2 ht2 with ⟨q, hq⟩
        refine Or.inl ⟨hp, q, ?_⟩
        show (t2.2.2).fillna0 = FloatVal.fin q
        rw [hq]
        rfl
    · rcases List.mem_map.mp happ with ⟨t2, ht2, rfl⟩
      rcases happmem t2 ht2 with ⟨h1, h2, h3⟩
      refine Or.inr ⟨?_, ?_, ?_⟩
      · show (t2.1).getD 0 = 0
        rw [h1]
        rfl
      · show (t2.2.1).getD 0 = 0
        rw [h2]
        rfl
      · show (t2.2.2).fillna0 = FloatVal.fin 0
        rw [h3]
        rfl
  · intro p hp
    unfold expand_matrix_stn
    by_cases hemp : (tr.filter fun t => t.1 = some p.1 ∧ t.2.1 = some p.2).isEmpty = true
    · refine ⟨(p.1, p.2, FloatVal.fin 0), ?_, rfl, rfl⟩
      apply List.mem_append.mpr
      apply Or.inl
      apply List.mem_flatMap.mpr
      refine ⟨p, hp, ?_⟩
      dsimp only
      rw [if_pos hemp]
      simp
    · cases hms : tr.filter fun t => t.1 = some p.1 ∧ t.2.1 = some p.2 with
      | nil => rw [hms] at hemp; simp at hemp
      | cons m rest =>
          refine ⟨(p.1, p.2, (m.2.2).fillna0), ?_, rfl, rfl⟩
          apply List.mem_append.mpr
          apply Or.inl
          apply List.mem_flatMap.mpr
          refine ⟨p, hp, ?_⟩
          dsimp only
          rw [if_neg hemp, hms]
          simp
  · unfold expand_matrix_stn
    rw [List.map_append, List.sum_append]
    have happ0 : (((tr.filter fun t =>
        ¬ ∃ p ∈ gridPairs S, t.1 = some p.1 ∧ t.2.1 = some p.2).map
          fun t => ((t.1).getD 0, (t.2.1).getD 0, (t.2.2).fillna0)).map
        fun t => toQ t.2.2).sum = 0 := by
      apply List.sum_eq_zero
      intro x hx
      rcases List.mem_map.mp hx with ⟨t2, ht2, rfl⟩
      rcases List.mem_map.mp ht2 with ⟨t3, ht3, rfl⟩
      rcases happmem t3 ht3 with ⟨_, _, h3⟩
      show toQ ((t3.2.2).fillna0) = 0
      rw [h3]
      rfl
    rw [happ0, add_zero]
    rw [List.map_flatMap, sum_flatMap_q]
    have hbranch : ∀ p ∈ gridPairs S,
        (((if (tr.filter fun t => t.1 = some p.1 ∧ t.2.1 = some p.2).isEmpty
            then [(p.1, p.2, FloatVal.fin 0)]
            else (tr.filter fun t => t.1 = some p.1 ∧ t.2.1 = some p.2).map
              fun t => (p.1, p.2, (t.2.2).fillna0)).map fun t => toQ t.2.2)).sum
        = (((tr.filter fun t => (t.1, t.2.1)
            = ((some p.1, some p.2) : Option ℤ × Option ℤ)).map fun t => toQ t.2.2)).sum := by
      intro p hp
      rw [sum_if_empty_zero2 _ _ _ _ (by rfl)]
      rw [List.map_map]
      have hfc : (tr.filter fun t => t.1 = some p.1 ∧ t.2.1 = some p.2)
          = tr.filter fun t => (t.1, t.2.1) = ((some p.1, some p.2) : Option ℤ × Option ℤ) := by
        apply List.filter_congr
        intro t _
        by_cases h1 : t.1 = some p.1 <;> by_cases h2 : t.2.1 = some p.2 <;>
          simp [h1, h2, Prod.ext_iff]
      rw [← hfc]
      apply congrArg
      apply List.map_congr_left
      intro t ht
      rcases hmsmem p t ht with ⟨q, hq⟩
      show toQ ((t.2.2).fillna0) = toQ t.2.2
      rw [hq]
      rfl
    rw [List.map_congr_left hbranch]
    have hreindex : ((gridPairs S).map fun p =>
        (((tr.filter fun t => (t.1, t.2.1)
            = ((some p.1, some p.2) : Option ℤ × Option ℤ)).map fun t => toQ t.2.2)).sum)
        = (((gridPairs S).map fun p => ((some p.1, some p.2) : Option ℤ × Option ℤ)).map
          fun k => (((tr.filter fun t => (t.1, t.2.1) = k).map fun t => toQ t.2.2)).sum) := by
      rw [List.map_map]
      rfl
    rw [hreindex]
    have hnodup : (((gridPairs S).map
        fun p => ((some p.1, some p.2) : Option ℤ × Option ℤ))).Nodup := by
      refine List.Nodup.map ?_ (nodup_gridPairs S)
      intro p1 p2 h
      simp only [Prod.mk.injEq, Option.some_inj] at h
      exact Prod.ext h.1 h.2
    have hsplit := sum_map_filter_split (fun t : Option ℤ × Option ℤ × FloatVal =>
      (t.1, t.2.1) ∈ (gridPairs S).map
        fun p => ((some p.1, some p.2) : Option ℤ × Option ℤ)) tr (fun t => toQ t.2.2)
    have hrest0 : (((tr.filter fun t => ! ((t.1, t.2.1) ∈ (gridPairs S).map
        fun p => ((some p.1, some p.2) : Option ℤ × Option ℤ) : Bool)).map
        fun t => toQ t.2.2)).sum = 0 := by
      apply List.sum_eq_zero
      intro x hx
      rcases List.mem_map.mp hx with ⟨t, ht, rfl⟩
      rcases List.mem_filter.mp ht with ⟨htr, hpred⟩
      rcases hshape t htr with ⟨_, _, h3⟩ | ⟨a, b, q, h1, h2, hg, _⟩
      · rw [h3]
        rfl
      · exfalso
        have hmem : ((t.1, t.2.1) : Option ℤ × Option ℤ) ∈ (gridPairs S).map
            fun p => ((some p.1, some p.2) : Option ℤ × Option ℤ) := by
          rw [h1, h2]
          exact List.mem_map_of_mem _ hg
        simp [hmem] at hpred
    have hfilters : ∀ k ∈ (gridPairs S).map
        fun p => ((some p.1, some p.2) : Option ℤ × Option ℤ),
        (((tr.filter fun t => (t.1, t.2.1) = k).map fun t => toQ t.2.2)).sum
        = ((((tr.filter fun t => (t.1, t.2.1) ∈ (gridPairs S).map
            fun p => ((some p.1, some p.2) : Option ℤ × Option ℤ)).filter
          fun t => (t.1, t.2.1) = k).map fun t => toQ t.2.2)).sum := by
      intro k hk
      rw [List.filter_filter]
      apply congrArg
      apply congrArg
      apply List.filter_congr
      intro t _
      by_cases ht : ((t.1, t.2.1) : Option ℤ × Option ℤ) = k
      · have hmem2 : ((t.1, t.2.1) : Option ℤ × Option ℤ) ∈ (gridPairs S).map
            fun p => ((some p.1, some p.2) : Option ℤ × Option ℤ) := ht ▸ hk
        rw [decide_eq_true ht, decide_eq_true hmem2]
        rfl
      · rw [decide_eq_false ht]
        rfl
    have hmapeq : (((gridPairs S).map
          fun p => ((some p.1, some p.2) : Option ℤ × Option ℤ)).map
          fun k => (((tr.filter fun t => (t.1, t.2.1) = k).map fun t => toQ t.2.2)).sum)
        = (((gridPairs S).map fun p => ((some p.1, some p.2) : Option ℤ × Option ℤ)).map
          fun k => ((((tr.filter fun t => (t.1, t.2.1) ∈ (gridPairs S).map
              fun p => ((some p.1, some p.2) : Option ℤ × Option ℤ)).filter
            fun t => (t.1, t.2.1) = k).map fun t => toQ t.2.2)).sum) :=
      List.map_congr_left hfilters
    rw [hmapeq]
    have hpart := sum_keys_filter
      ((gridPairs S).map fun p => ((some p.1, some p.2) : Option ℤ × Option ℤ))
      (tr.filter fun t => (t.1, t.2.1) ∈ (gridPairs S).map
        fun p => ((some p.1, some p.2) : Option ℤ × Option ℤ))
      (fun t => (t.1, t.2.1)) (fun t => toQ t.2.2) hnodup
      (fun t ht => of_decide_eq_true (List.mem_filter.mp ht).2)
    rw [hpart]
    rw [hsplit, hrest0, add_zero]

/-- Transposing swaps the key columns only: the demand total is unchanged. -/
theorem demandTotal_transpose (mx : List DemandRow) :
    demandTotal (transpose_matrix mx) = demandTotal mx := by
  unfold demandTotal transpose_matrix
  rw [List.map_map]
  rfl

/-- The join of lines 331-339 only appends columns: the station-key/demand
triple of every row is untouched. -/
theorem joinTotals_proj (rows : List ScaledRow) :
    (joinTotalsAndShare rows).map (fun r => (r.from_stn, r.to_stn, r.demand))
      = rows.map fun r => (r.from_stn, r.to_stn, r.demand) := by
  simp only [joinTotalsAndShare]
  rw [List.map_map]
  rfl

/-- Rows of the merged-and-scaled frame, projected to their station-key and
demand columns, have the mixed shape `expand_matrix_stn` expects: fully NaN
(no probability match) or resolved on the station grid with finite demand. -/
theorem mergeProps_scaled_shape (dm : List DemandRow) (props : List PropRow) (uc : ℤ) (S : ℕ)
    (hprops : ∀ pr ∈ props,
      ((pr.from_stn_zone_id, pr.to_stn_zone_id) : ℤ × ℤ) ∈ gridPairs S) :
    ∀ t ∈ ((mergeProps dm props uc).map scaleDemand).map
        fun r => (r.from_stn, r.to_stn, r.demand),
      (t.1 = none ∧ t.2.1 = none ∧ t.2.2 = FloatVal.nan)
      ∨ (∃ a b q, t.1 = some a ∧ t.2.1 = some b
          ∧ ((a, b) : ℤ × ℤ) ∈ gridPairs S ∧ t.2.2 = FloatVal.fin q) := by
  intro t ht
  rw [List.map_map] at ht
  rcases List.mem_map.mp ht with ⟨r, hr, rfl⟩
  rcases (mem_mergeProps dm props uc r hr).2 with ⟨h1, h2, h3⟩ | ⟨pr, hpr, _, h1, h2, h3⟩
  · left
    refine ⟨?_, ?_, ?_⟩
    · show (scaleDemand r).from_stn = none
      simp [scaleDemand, h1]
    · show (scaleDemand r).to_stn = none
      simp [scaleDemand, h2]
    · show (scaleDemand r).demand = FloatVal.nan
      simp [scaleDemand, h3]
  · right
    refine ⟨pr.from_stn_zone_id, pr.to_stn_zone_id, r.demand * pr.proportion,
      ?_, ?_, hprops pr hpr, ?_⟩
    · show (scaleDemand r).from_stn = some pr.from_stn_zone_id
      simp [scaleDemand, h1]
    · show (scaleDemand r).to_stn = some pr.to_stn_zone_id
      simp [scaleDemand, h2]
    · show (scaleDemand r).demand = FloatVal.fin (r.demand * pr.proportion)
      simp [scaleDemand, h3]

/-- On merged-and-scaled rows, the float value the station table carries
agrees with `matScaled` (the NaN of an unmatched row counts as 0 both
ways). -/
theorem mergeProps_toQ_eq (dm : List DemandRow) (props : List PropRow) (uc : ℤ) :
    (((((mergeProps dm props uc).map scaleDemand).map
        fun r => (r.from_stn, r.to_stn, r.demand)).map fun t => toQ t.2.2)).sum
      = ((((mergeProps dm props uc).map scaleDemand)).map matScaled).sum := by
  rw [List.map_map, List.map_map, List.map_map]
  congr 1
  apply List.map_congr_left
  intro m hm
  rcases (mem_mergeProps dm props uc m hm).2 with ⟨h1, h2, h3⟩ | ⟨pr, _, _, h1, h2, h3⟩
  · show toQ (scaleDemand m).demand = matScaled (scaleDemand m)
    simp [scaleDemand, matScaled, h1, h2, h3, toQ]
  · show toQ (scaleDemand m).demand = matScaled (scaleDemand m)
    simp [scaleDemand, matScaled, h1, h2, h3, toQ]

/-- From the mixed-shape station table to the final pivoted matrix: grouping
by station pair, dropping the `(0, 0)` sentinel pair, zero-filling and
pivoting conserve the value total. -/
theorem station_pipeline_total (tr : List (Option ℤ × Option ℤ × FloatVal)) (S : ℕ)
    (hshape : ∀ t ∈ tr,
      (t.1 = none ∧ t.2.1 = none ∧ t.2.2 = FloatVal.nan)
      ∨ (∃ a b q, t.1 = some a ∧ t.2.1 = some b
          ∧ ((a, b) : ℤ × ℤ) ∈ gridPairs S ∧ t.2.2 = FloatVal.fin q)) :
    floatTotal (long_mx_2_wide_mx
      (((groupbySum (expand_matrix_stn tr S)).filter
          fun t => t.1 ≠ 0 ∧ t.2.1 ≠ 0).map fun t => (t.1, t.2.1, (t.2.2).fillna0)))
      = FloatVal.fin ((tr.map fun t => toQ t.2.2).sum) := by
  obtain ⟨hE1, hE2, hE3⟩ := expand_stn_mixed tr S hshape
  have hEfin : ∀ t ∈ expand_matrix_stn tr S, ∃ q, t.2.2 = FloatVal.fin q := by
    intro t ht
    rcases hE1 t ht with ⟨_, q, hq⟩ | ⟨_, _, hq⟩
    · exact ⟨q, hq⟩
    · exact ⟨0, hq⟩
  have hGfin := groupbySum_fin (expand_matrix_stn tr S) hEfin
  have hGtot := groupbySum_total (expand_matrix_stn tr S) hEfin
  have hkeptkey : ∀ g ∈ (groupbySum (expand_matrix_stn tr S)).filter
      fun t => t.1 ≠ 0 ∧ t.2.1 ≠ 0,
      ((g.1, g.2.1) : ℤ × ℤ) ∈ gridPairs S := by
    intro g hg
    rcases List.mem_filter.mp hg with ⟨hgG, hpred⟩
    have hp := of_decide_eq_true hpred
    have hkey := (mem_groupbySum _ g hgG).1
    rcases List.mem_map.mp hkey with ⟨t, htE, hkt⟩
    rcases hE1 t htE with ⟨hgrid, _⟩ | ⟨h1, _, _⟩
    · rw [← hkt]
      exact hgrid
    · exfalso
      have hg1 : g.1 = t.1 := ((Prod.ext_iff.mp hkt).1).symm
      exact hp.1 (by rw [hg1, h1])
  have hdrop0 : (((groupbySum (expand_matrix_stn tr S)).filter
      fun t => ! (decide (t.1 ≠ 0 ∧ t.2.1 ≠ 0))).map fun t => toQ t.2.2).sum = 0 := by
    apply List.sum_eq_zero
    intro x hx
    rcases List.mem_map.mp hx with ⟨g, hgmem, rfl⟩
    rcases List.mem_filter.mp hgmem with ⟨hgG, hneg⟩
    simp only [Bool.not_eq_eq_eq_not, Bool.not_true, decide_eq_false_iff_not] at hneg
    rw [not_and_or, not_not, not_not] at hneg
    have hboth : g.1 = 0 ∧ g.2.1 = 0 := by
      have hkey := (mem_groupbySum _ g hgG).1
      rcases List.mem_map.mp hkey with ⟨t, htE, hkt⟩
      have hg1 : t.1 = g.1 := (Prod.ext_iff.mp hkt).1
      have hg2 : t.2.1 = g.2.1 := (Prod.ext_iff.mp hkt).2
      rcases hE1 t htE with ⟨hgrid, _⟩ | ⟨h1, h2, _⟩
      · exfalso
        obtain ⟨b1, b2, b3, b4⟩ := (mem_gridPairs S (t.1, t.2.1)).mp hgrid
        rcases hneg with h0 | h0 <;> omega
      · exact ⟨hg1.symm.trans h1, hg2.symm.trans h2⟩
    have hvals : ∀ v ∈ ((expand_matrix_stn tr S).filter
        fun t => t.1 = g.1 ∧ t.2.1 = g.2.1).map fun t => t.2.2, v = FloatVal.fin 0 := by
      intro v hv
      rcases List.mem_map.mp hv with ⟨t, htf, rfl⟩
      rcases List.mem_filter.mp htf with ⟨htE, htp⟩
      have htp2 := of_decide_eq_true htp
      rcases hE1 t htE with ⟨hgrid, _⟩ | ⟨_, _, h3⟩
      · exfalso
        obtain ⟨b1, b2, b3, b4⟩ := (mem_gridPairs S (t.1, t.2.1)).mp hgrid
        have h1 : t.1 = g.1 := htp2.1
        have h0 : g.1 = 0 := hboth.1
        omega
      · exact h3
    rw [(mem_groupbySum _ g hgG).2]
    rw [floatSum_all_fin _ (fun v hv => ⟨0, hvals v hv⟩)]
    show ((((expand_matrix_stn tr S).filter
        fun t => t.1 = g.1 ∧ t.2.1 = g.2.1).map fun t => t.2.2).map toQ).sum = 0
    apply List.sum_eq_zero
    intro x hx
    rcases List.mem_map.mp hx with ⟨v, hv, rfl⟩
    rw [hvals v hv]
    rfl
  have hK2keys : ∀ t ∈ ((groupbySum (expand_matrix_stn tr S)).filter
      fun t => t.1 ≠ 0 ∧ t.2.1 ≠ 0).map fun t => (t.1, t.2.1, (t.2.2).fillna0),
      ((t.1, t.2.1) : ℤ × ℤ) ∈ gridPairs S := by
    intro t ht
    rcases List.mem_map.mp ht with ⟨g, hg, rfl⟩
    exact hkeptkey g hg
  have hK2cov : ∀ p ∈ gridPairs S,
      ∃ t ∈ ((groupbySum (expand_matrix_stn tr S)).filter
        fun t => t.1 ≠ 0 ∧ t.2.1 ≠ 0).map fun t => (t.1, t.2.1, (t.2.2).fillna0),
      t.1 = p.1 ∧ t.2.1 = p.2 := by
    intro p hp
    rcases hE2 p hp with ⟨t, htE, ht1, ht2⟩
    have hkmem : p ∈ (expand_matrix_stn tr S).map fun t => (t.1, t.2.1) := by
      refine List.mem_map.mpr ⟨t, htE, ?_⟩
      rw [ht1, ht2]
    rcases groupbySum_covers _ p hkmem with ⟨g, hgG, hgp1, hgp2⟩
    obtain ⟨b1, b2, b3, b4⟩ := (mem_gridPairs S p).mp hp
    have hgkept : g ∈ (groupbySum (expand_matrix_stn tr S)).filter
        fun t => t.1 ≠ 0 ∧ t.2.1 ≠ 0 := by
      refine List.mem_filter.mpr ⟨hgG, decide_eq_true ⟨?_, ?_⟩⟩
      · rw [hgp1]; omega
      · rw [hgp2]; omega
    exact ⟨(g.1, g.2.1, (g.2.2).fillna0), List.mem_map.mpr ⟨g, hgkept, rfl⟩, hgp1, hgp2⟩
  have hK2fin : ∀ t ∈ ((groupbySum (expand_matrix_stn tr S)).filter
      fun t => t.1 ≠ 0 ∧ t.2.1 ≠ 0).map fun t => (t.1, t.2.1, (t.2.2).fillna0),
      ∃ q, t.2.2 = FloatVal.fin q := by
    intro t ht
    rcases List.mem_map.mp ht with ⟨g, hg, rfl⟩
    rcases hGfin g (List.mem_filter.mp hg).1 with ⟨q, hq⟩
    refine ⟨q, ?_⟩
    show (g.2.2).fillna0 = FloatVal.fin q
    rw [hq]
    rfl
  have hK2nd : ((((groupbySum (expand_matrix_stn tr S)).filter
      fun t => t.1 ≠ 0 ∧ t.2.1 ≠ 0).map
        fun t => (t.1, t.2.1, (t.2.2).fillna0)).map fun t => (t.1, t.2.1)).Nodup := by
    rw [List.map_map]
    have hsub : (((groupbySum (expand_matrix_stn tr S)).filter
        fun t => t.1 ≠ 0 ∧ t.2.1 ≠ 0).map fun t => (t.1, t.2.1)).Sublist
        ((groupbySum (expand_matrix_stn tr S)).map fun t => (t.1, t.2.1)) :=
      List.Sublist.map _ (List.filter_sublist _)
    exact List.Nodup.sublist hsub (groupbySum_nodup_keys _)
  rw [pivot_complete_grid_total _ S hK2keys hK2cov hK2fin hK2nd]
  apply congrArg
  have hK2sum : (((((groupbySum (expand_matrix_stn tr S)).filter
      fun t => t.1 ≠ 0 ∧ t.2.1 ≠ 0).map
        fun t => (t.1, t.2.1, (t.2.2).fillna0)).map fun t => toQ t.2.2)).sum
      = ((((groupbySum (expand_matrix_stn tr S)).filter
        fun t => t.1 ≠ 0 ∧ t.2.1 ≠ 0).map fun t => toQ t.2.2)).sum := by
    rw [List.map_map]
    congr 1
    apply List.map_congr_left
    intro g hg
    rcases hGfin g (List.mem_filter.mp hg).1 with ⟨q, hq⟩
    show toQ ((g.2.2).fillna0) = toQ g.2.2
    rw [hq]
    rfl
  rw [hK2sum]
  have hsplitG := sum_map_filter_split
    (fun t : ℤ × ℤ × FloatVal => decide (t.1 ≠ 0 ∧ t.2.1 ≠ 0))
    (groupbySum (expand_matrix_stn tr S)) (fun t => toQ t.2.2)
  rw [hdrop0, add_zero] at hsplitG
  rw [← hsplitG, hGtot, hE3]

/-- Core conservation statement over an already-oriented demand list: when
the probability rows' station identifiers lie on the station grid and every
demand-carrying row's matching proportions sum to 1, the station pipeline
conserves the demand total. -/
theorem zonal_total_of_shares (dm : List DemandRow) (props : List PropRow) (uc : ℤ) (S : ℕ)
    (hprops : ∀ pr ∈ props,
      ((pr.from_stn_zone_id, pr.to_stn_zone_id) : ℤ × ℤ) ∈ gridPairs S)
    (hshare : ∀ d ∈ dm,
      ((props.filter fun pr => pr.fromZone = d.fromZone ∧ pr.toZone = d.toZone
          ∧ pr.userclass = uc).map fun pr => pr.proportion).sum = 1
        ∨ d.demand = 0) :
    floatTotal (long_mx_2_wide_mx
      (((groupbySum (expand_matrix_stn
          ((joinTotalsAndShare ((mergeProps dm props uc).map scaleDemand)).map
            fun r => (r.from_stn, r.to_stn, r.demand)) S)).filter
        fun t => t.1 ≠ 0 ∧ t.2.1 ≠ 0).map fun t => (t.1, t.2.1, (t.2.2).fillna0)))
      = FloatVal.fin (demandTotal dm) := by
  rw [joinTotals_proj]
  rw [station_pipeline_total _ S (mergeProps_scaled_shape dm props uc S hprops)]
  apply congrArg
  rw [mergeProps_toQ_eq, mergeProps_matSum]
  unfold demandTotal
  congr 1
  apply List.map_congr_left
  intro d hd
  rcases hshare d hd with h1 | h0
  · rw [h1, mul_one]
  · rw [h0, zero_mul]

/-- C1 (amended): the station-by-station matrix returned by
`zonal_from_to_stations_demand` carries exactly the input's total demand
provided (i) the probability rows' station identifiers lie in
`1..stations_count` and (ii) for every row of the expanded (and, for a
to-home segment, transposed) demand frame, the proportions of its matching
probability rows sum to 1 — the mere existence of a matching row claimed by
the specification is not enough, and an unmatched row needs zero demand
because its demand is silently lost. -/
theorem C1_demand_conservation (demand_mx : List DemandRow) (irsj_props : List PropRow)
    (stations_count : ℕ) (userclass : ℤ) (to_home : Bool) (model_zones : ℕ)
    (hprops : ∀ pr ∈ irsj_props,
      ((pr.from_stn_zone_id, pr.to_stn_zone_id) : ℤ × ℤ) ∈ gridPairs stations_count)
    (hshare : ∀ d ∈ (if to_home then transpose_matrix (expand_matrix demand_mx model_zones)
        else expand_matrix demand_mx model_zones),
      ((irsj_props.filter fun pr => pr.fromZone = d.fromZone ∧ pr.toZone = d.toZone
          ∧ pr.userclass = userclass).map fun pr => pr.proportion).sum = 1
        ∨ d.demand = 0) :
    floatTotal (zonal_from_to_stations_demand demand_mx irsj_props stations_count
        userclass to_home model_zones).1
      = FloatVal.fin (demandTotal demand_mx) := by
  cases to_home with
  | false =>
      unfold zonal_from_to_stations_demand stnMatrixGroups
      dsimp only
      rw [if_neg Bool.false_ne_true] at hshare ⊢
      rw [show demandTotal demand_mx
          = demandTotal (expand_matrix demand_mx model_zones) from
        (demandTotal_expand demand_mx model_zones).symm]
      exact zonal_total_of_shares (expand_matrix demand_mx model_zones) irsj_props
        userclass stations_count hprops hshare
  | true =>
      unfold zonal_from_to_stations_demand stnMatrixGroups
      dsimp only
      rw [if_pos rfl] at hshare ⊢
      rw [show demandTotal demand_mx
          = demandTotal (transpose_matrix (expand_matrix demand_mx model_zones)) from by
        rw [demandTotal_transpose, demandTotal_expand]]
      exact zonal_total_of_shares
        (transpose_matrix (expand_matrix demand_mx model_zones)) irsj_props
        userclass stations_count hprops hshare

/-- C1 counterexample: one demand row of 10 and one matching probability row
with proportion 1/2 — the claim's precondition (a matching probability row
for every positive-demand zone pair) holds, yet the returned station matrix
totals 5, not 10: the source never checks that the proportions of a zone
pair sum to 1. -/
theorem C1_counterexample :
    floatTotal (zonal_from_to_stations_demand [(⟨1, 1, 10⟩ : DemandRow)]
        [(⟨1, 1, 1, 1, 1, 1/2⟩ : PropRow)] 1 1 false 1).1
      ≠ FloatVal.fin (demandTotal [(⟨1, 1, 10⟩ : DemandRow)]) := by
  have hstep : (zonal_from_to_stations_demand [(⟨1, 1, 10⟩ : DemandRow)]
      [(⟨1, 1, 1, 1, 1, 1/2⟩ : PropRow)] 1 1 false 1).1
      = long_mx_2_wide_mx [((1 : ℤ), (1 : ℤ), FloatVal.fin (0 + 10 * (1/2 : ℚ)))] := rfl
  have hpiv := pivot_single_key_mean 1 1 [0 + 10 * (1/2 : ℚ)] (by simp)
  simp only [List.map_cons, List.map_nil] at hpiv
  have h5 : (([0 + 10 * (1/2 : ℚ)] : List ℚ).sum
      / ((([0 + 10 * (1/2 : ℚ)] : List ℚ).length : ℕ) : ℚ)) = 5 := by
    norm_num
  rw [h5] at hpiv
  rw [hstep, hpiv]
  have htot : demandTotal [(⟨1, 1, 10⟩ : DemandRow)] = 10 := by
    simp [demandTotal]
  rw [htot]
  have hfl : floatTotal [[FloatVal.fin 5]] = FloatVal.fin (0 + 5) := rfl
  rw [hfl]
  intro hcon
  exact absurd (FloatVal.fin.inj hcon) (by norm_num)

theorem C1_demand_conservation_witness :
    (∀ pr ∈ [(⟨1, 1, 1, 1, 1, 1⟩ : PropRow)],
      ((pr.from_stn_zone_id, pr.to_stn_zone_id) : ℤ × ℤ) ∈ gridPairs 1)
    ∧ (∀ d ∈ (if false then transpose_matrix (expand_matrix [(⟨1, 1, 10⟩ : DemandRow)] 1)
        else expand_matrix [(⟨1, 1, 10⟩ : DemandRow)] 1),
      (([(⟨1, 1, 1, 1, 1, 1⟩ : PropRow)].filter fun pr => pr.fromZone = d.fromZone
          ∧ pr.toZone = d.toZone ∧ pr.userclass = 1).map fun pr => pr.proportion).sum = 1
        ∨ d.demand = 0)
    ∧ floatTotal (zonal_from_to_stations_demand [(⟨1, 1, 10⟩ : DemandRow)]
        [(⟨1, 1, 1, 1, 1, 1⟩ : PropRow)] 1 1 false 1).1
      = FloatVal.fin (demandTotal [(⟨1, 1, 10⟩ : DemandRow)]) := by
  have h1 : ∀ pr ∈ [(⟨1, 1, 1, 1, 1, 1⟩ : PropRow)],
      ((pr.from_stn_zone_id, pr.to_stn_zone_id) : ℤ × ℤ) ∈ gridPairs 1 := by
    intro pr hpr
    rcases List.mem_singleton.mp hpr with rfl
    decide
  have h2 : ∀ d ∈ (if false then transpose_matrix (expand_matrix
        [(⟨1, 1, 10⟩ : DemandRow)] 1)
      else expand_matrix [(⟨1, 1, 10⟩ : DemandRow)] 1),
      (([(⟨1, 1, 1, 1, 1, 1⟩ : PropRow)].filter fun pr => pr.fromZone = d.fromZone
          ∧ pr.toZone = d.toZone ∧ pr.userclass = 1).map fun pr => pr.proportion).sum = 1
        ∨ d.demand = 0 := by
    intro d hd
    have hexp : expand_matrix [(⟨1, 1, 10⟩ : DemandRow)] 1 = [⟨1, 1, 10⟩] := rfl
    have hd2 : d ∈ [(⟨1, 1, 10⟩ : DemandRow)] := hexp ▸ hd
    rcases List.mem_singleton.mp hd2 with rfl
    left
    show ([(1 : ℚ)]).sum = 1
    simp
  exact ⟨h1, h2, C1_demand_conservation [(⟨1, 1, 10⟩ : DemandRow)]
    [(⟨1, 1, 1, 1, 1, 1⟩ : PropRow)] 1 1 false 1 h1 h2⟩

/-- The outer merge of `expand_matrix` preserves demand nonnegativity (grid
fill rows carry 0). -/
theorem expand_matrix_nonneg (mx : List DemandRow) (z : ℕ)
    (hd : ∀ r ∈ mx, 0 ≤ r.demand) :
    ∀ r ∈ expand_matrix mx z, 0 ≤ r.demand := by
  intro r hr
  rcases (mem_expand_matrix mx z r).mp hr with ⟨hm, _⟩ | ⟨_, h0, _⟩ | ⟨hm, _⟩
  · exact hd r hm
  · rw [h0]
  · exact hd r hm

/-- Transposing preserves demand nonnegativity. -/
theorem transpose_matrix_nonneg (mx : List DemandRow)
    (hd : ∀ r ∈ mx, 0 ≤ r.demand) :
    ∀ r ∈ transpose_matrix mx, 0 ≤ r.demand := by
  intro r hr
  rcases List.mem_map.mp hr with ⟨s, hs, rfl⟩
  exact hd s hs

/-- With nonnegative demand and proportions, every merged-and-scaled row is
either fully unmatched (NaN) or resolved with a finite nonnegative scaled
demand. -/
theorem mergeProps_scaled_nonneg (dm : List DemandRow) (props : List PropRow) (uc : ℤ)
    (hd : ∀ r ∈ dm, 0 ≤ r.demand) (hp : ∀ pr ∈ props, 0 ≤ pr.proportion) :
    ∀ s ∈ (mergeProps dm props uc).map scaleDemand,
      (s.from_stn = none ∧ s.to_stn = none ∧ s.demand = FloatVal.nan)
      ∨ (∃ a b q, s.from_stn = some a ∧ s.to_stn = some b
          ∧ s.demand = FloatVal.fin q ∧ 0 ≤ q) := by
  intro s hs
  rcases List.mem_map.mp hs with ⟨r, hr, rfl⟩
  rcases mem_mergeProps dm props uc r hr with ⟨⟨d, hdm, _, _, hdem⟩, hbr⟩
  rcases hbr with ⟨h1, h2, h3⟩ | ⟨pr, hpr, _, h1, h2, h3⟩
  · left
    refine ⟨?_, ?_, ?_⟩
    · show (scaleDemand r).from_stn = none
      simp [scaleDemand, h1]
    · show (scaleDemand r).to_stn = none
      simp [scaleDemand, h2]
    · show (scaleDemand r).demand = FloatVal.nan
      simp [scaleDemand, h3]
  · right
    refine ⟨pr.from_stn_zone_id, pr.to_stn_zone_id, r.demand * pr.proportion,
      ?_, ?_, ?_, ?_⟩
    · show (scaleDemand r).from_stn = some pr.from_stn_zone_id
      simp [scaleDemand, h1]
    · show (scaleDemand r).to_stn = some pr.to_stn_zone_id
      simp [scaleDemand, h2]
    · show (scaleDemand r).demand = FloatVal.fin (r.demand * pr.proportion)
      simp [scaleDemand, h3]
    · have hrd : 0 ≤ r.demand := by
        rw [hdem]
        exact hd d hdm
      exact mul_nonneg hrd (hp pr hpr)

/-- Every station-keyed row extracted for the `groupby` of lines 320-328
carries a finite nonnegative value when the scaled rows do. -/
theorem stn2stn_base_fin_nonneg (sc : List ScaledRow)
    (hsc : ∀ s ∈ sc,
      (s.from_stn = none ∧ s.to_stn = none ∧ s.demand = FloatVal.nan)
      ∨ (∃ a b q, s.from_stn = some a ∧ s.to_stn = some b
          ∧ s.demand = FloatVal.fin q ∧ 0 ≤ q)) :
    ∀ x ∈ sc.filterMap fun r =>
      match r.from_stn, r.to_stn with
      | some a, some b => some ((a, b, r.demand) : ℤ × ℤ × FloatVal)
      | _, _ => none,
      ∃ p, x.2.2 = FloatVal.fin p ∧ 0 ≤ p := by
  intro x hx
  rcases List.mem_filterMap.mp hx with ⟨s, hs, hmx⟩
  rcases hsc s hs with ⟨h1, h2, _⟩ | ⟨a, b, q, h1, h2, h3, hq⟩
  · rw [h1, h2] at hmx
    cases hmx
  · rw [h1, h2] at hmx
    have hx2 : x = (a, b, s.demand) := (Option.some_inj.mp hmx).symm
    rw [hx2]
    exact ⟨q, h3, hq⟩

/-- The `find?` of the subtotal join, on a group list built from finite
nonnegative values containing the row's own entry: the joined subtotal is
finite, nonnegative, and at least the row's own value. -/
theorem groups_find_bound (base : List (ℤ × ℤ × FloatVal)) (a b : ℤ) (q : ℚ)
    (hfin : ∀ x ∈ base, ∃ p, x.2.2 = FloatVal.fin p ∧ 0 ≤ p)
    (hmem : ((a, b, FloatVal.fin q) : ℤ × ℤ × FloatVal) ∈ base) :
    ∃ g T, ((groupbySum base).find? fun t => t.1 = a ∧ t.2.1 = b) = some g
      ∧ g.2.2 = FloatVal.fin T ∧ 0 ≤ T ∧ q ≤ T := by
  have hk : ((a, b) : ℤ × ℤ) ∈ base.map fun t => (t.1, t.2.1) :=
    List.mem_map.mpr ⟨(a, b, FloatVal.fin q), hmem, rfl⟩
  rcases groupbySum_covers base (a, b) hk with ⟨g0, hg0, hg01, hg02⟩
  have hsome : (((groupbySum base).find? fun t => t.1 = a ∧ t.2.1 = b)).isSome := by
    rw [List.find?_isSome]
    exact ⟨g0, hg0, decide_eq_true ⟨hg01, hg02⟩⟩
  cases hfind : ((groupbySum base).find? fun t => t.1 = a ∧ t.2.1 = b) with
  | none =>
      rw [hfind] at hsome
      cases hsome
  | some g =>
      have hgmem : g ∈ groupbySum base := List.mem_of_find?_eq_some hfind
      have hgpred := List.find?_some hfind
      simp only [decide_eq_true_eq] at hgpred
      have hval := (mem_groupbySum base g hgmem).2
      have hvfin : ∀ v ∈ (base.filter fun t => t.1 = g.1 ∧ t.2.1 = g.2.1).map
          fun t => t.2.2, ∃ p, v = FloatVal.fin p ∧ 0 ≤ p := by
        intro v hv
        rcases List.mem_map.mp hv with ⟨t, ht, rfl⟩
        exact hfin t (List.mem_filter.mp ht).1
      have hsum := floatSum_all_fin ((base.filter fun t => t.1 = g.1 ∧ t.2.1 = g.2.1).map
          fun t => t.2.2) (fun v hv => by rcases hvfin v hv with ⟨p, hp, _⟩; exact ⟨p, hp⟩)
      refine ⟨g, ((((base.filter fun t => t.1 = g.1 ∧ t.2.1 = g.2.1).map
        fun t => t.2.2).map toQ)).sum, rfl, hval.trans hsum, ?_, ?_⟩
      · apply List.sum_nonneg
        intro x hx
        rcases List.mem_map.mp hx with ⟨v, hv, rfl⟩
        rcases hvfin v hv with ⟨p, hp, hp0⟩
        rw [hp]
        exact hp0
      · apply List.single_le_sum
        · intro x hx
          rcases List.mem_map.mp hx with ⟨v, hv, rfl⟩
          rcases hvfin v hv with ⟨p, hp, hp0⟩
          rw [hp]
          exact hp0
        · have hq1 : (FloatVal.fin q) ∈ (base.filter fun t => t.1 = g.1 ∧ t.2.1 = g.2.1).map
              fun t => t.2.2 := by
            apply List.mem_map.mpr
            refine ⟨(a, b, FloatVal.fin q), ?_, rfl⟩
            rw [List.mem_filter]
            exact ⟨hmem, decide_eq_true ⟨hgpred.1.symm, hgpred.2.symm⟩⟩
          have : toQ (FloatVal.fin q) ∈ ((base.filter fun t => t.1 = g.1 ∧ t.2.1 = g.2.1).map
              fun t => t.2.2).map toQ := List.mem_map_of_mem toQ hq1
          exact this

/-- Provenance of a joined row (lines 331-339): its key/demand columns come
from a scaled row, its share column divides its demand by its subtotal
column, and the subtotal column is the `find?` result on the grouped
subtotals — NaN for a NaN-keyed row, which matches nothing. -/
theorem mem_joinTotalsAndShare (rows : List ScaledRow) (fr : FullRow)
    (hfr : fr ∈ joinTotalsAndShare rows) :
    ∃ s ∈ rows, fr.demand = s.demand ∧ fr.from_stn = s.from_stn ∧ fr.to_stn = s.to_stn
      ∧ fr.stn_to_zone = FloatVal.div s.demand fr.stn2stn_total_demand
      ∧ ((∃ a b g, s.from_stn = some a ∧ s.to_stn = some b
            ∧ (((stn2stn_totals rows).find? fun t => t.1 = a ∧ t.2.1 = b) = some g)
            ∧ fr.stn2stn_total_demand = g.2.2)
        ∨ ((s.from_stn = none ∨ s.to_stn = none
              ∨ ∃ a b, s.from_stn = some a ∧ s.to_stn = some b
                ∧ (((stn2stn_totals rows).find? fun t => t.1 = a ∧ t.2.1 = b) = none))
            ∧ fr.stn2stn_total_demand = FloatVal.nan)) := by
  simp only [joinTotalsAndShare] at hfr
  rcases List.mem_map.mp hfr with ⟨s, hs, rfl⟩
  refine ⟨s, hs, rfl, rfl, rfl, rfl, ?_⟩
  dsimp only
  cases hf1 : s.from_stn with
  | none =>
      exact Or.inr ⟨Or.inl rfl, rfl⟩
  | some a =>
      cases hf2 : s.to_stn with
      | none =>
          exact Or.inr ⟨Or.inr (Or.inl rfl), rfl⟩
      | some b =>
          cases hfind : (stn2stn_totals rows).find? fun t => t.1 = a ∧ t.2.1 = b with
          | none =>
              exact Or.inr ⟨Or.inr (Or.inr ⟨a, b, rfl, rfl, hfind⟩), by
                dsimp only
                rw [hfind]⟩
          | some g =>
              exact Or.inl ⟨a, b, g, rfl, rfl, hfind, by
                dsimp only
                rw [hfind]⟩

/-- The grouped, sentinel-filtered, zero-filled station table lies on the
station grid, covers it, and carries only finite values — the preconditions
of the final pivot. -/
theorem kept2_grid (tr : List (Option ℤ × Option ℤ × FloatVal)) (S : ℕ)
    (hshape : ∀ t ∈ tr,
      (t.1 = none ∧ t.2.1 = none ∧ t.2.2 = FloatVal.nan)
      ∨ (∃ a b q, t.1 = some a ∧ t.2.1 = some b
          ∧ ((a, b) : ℤ × ℤ) ∈ gridPairs S ∧ t.2.2 = FloatVal.fin q)) :
    (∀ t ∈ ((groupbySum (expand_matrix_stn tr S)).filter
        fun t => t.1 ≠ 0 ∧ t.2.1 ≠ 0).map fun t => (t.1, t.2.1, (t.2.2).fillna0),
      ((t.1, t.2.1) : ℤ × ℤ) ∈ gridPairs S)
    ∧ (∀ p ∈ gridPairs S, ∃ t ∈ ((groupbySum (expand_matrix_stn tr S)).filter
        fun t => t.1 ≠ 0 ∧ t.2.1 ≠ 0).map fun t => (t.1, t.2.1, (t.2.2).fillna0),
      t.1 = p.1 ∧ t.2.1 = p.2)
    ∧ (∀ t ∈ ((groupbySum (expand_matrix_stn tr S)).filter
        fun t => t.1 ≠ 0 ∧ t.2.1 ≠ 0).map fun t => (t.1, t.2.1, (t.2.2).fillna0),
      ∃ q, t.2.2 = FloatVal.fin q) := by
  obtain ⟨hE1, hE2, _⟩ := expand_stn_mixed tr S hshape
  have hEfin : ∀ t ∈ expand_matrix_stn tr S, ∃ q, t.2.2 = FloatVal.fin q := by
    intro t ht
    rcases hE1 t ht with ⟨_, q, hq⟩ | ⟨_, _, hq⟩
    · exact ⟨q, hq⟩
    · exact ⟨0, hq⟩
  have hGfin := groupbySum_fin (expand_matrix_stn tr S) hEfin
  refine ⟨?_, ?_, ?_⟩
  · intro t ht
    rcases List.mem_map.mp ht with ⟨g, hg, rfl⟩
    rcases List.mem_filter.mp hg with ⟨hgG, hpred⟩
    have hp := of_decide_eq_true hpred
    have hkey := (mem_groupbySum _ g hgG).1
    rcases List.mem_map.mp hkey with ⟨t2, htE, hkt⟩
    rcases hE1 t2 htE with ⟨hgrid, _⟩ | ⟨h1, _, _⟩
    · show ((g.1, g.2.1) : ℤ × ℤ) ∈ gridPairs S
      rw [← hkt]
      exact hgrid
    · exfalso
      have hg1 : g.1 = t2.1 := ((Prod.ext_iff.mp hkt).1).symm
      exact hp.1 (by rw [hg1, h1])
  · intro p hp
    rcases hE2 p hp with ⟨t, htE, ht1, ht2⟩
    have hkmem : p ∈ (expand_matrix_stn tr S).map fun t => (t.1, t.2.1) := by
      refine List.mem_map.mpr ⟨t, htE, ?_⟩
      rw [ht1, ht2]
    rcases groupbySum_covers _ p hkmem with ⟨g, hgG, hgp1, hgp2⟩
    obtain ⟨b1, b2, b3, b4⟩ := (mem_gridPairs S p).mp hp
    have hgkept : g ∈ (groupbySum (expand_matrix_stn tr S)).filter
        fun t => t.1 ≠ 0 ∧ t.2.1 ≠ 0 := by
      refine List.mem_filter.mpr ⟨hgG, decide_eq_true ⟨?_, ?_⟩⟩
      · rw [hgp1]; omega
      · rw [hgp2]; omega
    exact ⟨(g.1, g.2.1, (g.2.2).fillna0), List.mem_map.mpr ⟨g, hgkept, rfl⟩, hgp1, hgp2⟩
  · intro t ht
    rcases List.mem_map.mp ht with ⟨g, hg, rfl⟩
    rcases hGfin g (List.mem_filter.mp hg).1 with ⟨q, hq⟩
    refine ⟨q, ?_⟩
    show (g.2.2).fillna0 = FloatVal.fin q
    rw [hq]
    rfl

/-- The subtotal `find?` of a resolved scaled row: it succeeds, and the
found subtotal is finite, nonnegative, and at least the row's own scaled
demand. -/
theorem stn2stn_find_bound (sc : List ScaledRow)
    (hsc : ∀ s ∈ sc,
      (s.from_stn = none ∧ s.to_stn = none ∧ s.demand = FloatVal.nan)
      ∨ (∃ a b q, s.from_stn = some a ∧ s.to_stn = some b
          ∧ s.demand = FloatVal.fin q ∧ 0 ≤ q))
    (s : ScaledRow) (hs : s ∈ sc) (a b : ℤ) (q : ℚ)
    (h1 : s.from_stn = some a) (h2 : s.to_stn = some b) (h3 : s.demand = FloatVal.fin q) :
    ∃ g T, (((stn2stn_totals sc).find? fun t => t.1 = a ∧ t.2.1 = b) = some g)
      ∧ g.2.2 = FloatVal.fin T ∧ 0 ≤ T ∧ q ≤ T := by
  unfold stn2stn_totals
  apply groups_find_bound
  · exact stn2stn_base_fin_nonneg sc hsc
  · apply List.mem_filterMap.mpr
    refine ⟨s, hs, ?_⟩
    rw [h1, h2, h3]

theorem FloatVal.div_nan_left (x : FloatVal) : FloatVal.div FloatVal.nan x = FloatVal.nan := by
  cases x <;> rfl

theorem FloatVal.div_nan_right (x : FloatVal) : FloatVal.div x FloatVal.nan = FloatVal.nan := by
  cases x <;> rfl

theorem FloatVal.div_zero_zero :
    FloatVal.div (FloatVal.fin 0) (FloatVal.fin 0) = FloatVal.nan := by
  unfold FloatVal.div
  simp

/-- After the `fillna(0)`, the destination-end share of every joined row is
a finite nonnegative rational (under nonnegative scaled demands). -/
theorem joined_share_fin_nonneg (sc : List ScaledRow)
    (hsc : ∀ s ∈ sc,
      (s.from_stn = none ∧ s.to_stn = none ∧ s.demand = FloatVal.nan)
      ∨ (∃ a b q, s.from_stn = some a ∧ s.to_stn = some b
          ∧ s.demand = FloatVal.fin q ∧ 0 ≤ q)) :
    ∀ fr ∈ joinTotalsAndShare sc,
      ∃ q, (fr.stn_to_zone).fillna0 = FloatVal.fin q ∧ 0 ≤ q := by
  intro fr hfr
  rcases mem_joinTotalsAndShare sc fr hfr with ⟨s, hs, _, _, _, hdiv, hcase⟩
  rcases hsc s hs with ⟨_, _, hn3⟩ | ⟨a, b, q, h1, h2, h3, hq⟩
  · refine ⟨0, ?_, le_refl 0⟩
    rw [hdiv, hn3, FloatVal.div_nan_left]
    rfl
  · rcases hcase with ⟨a2, b2, g, h1', h2', hfind, htot⟩ | ⟨_, htot⟩
    · rw [h1] at h1'
      rw [h2] at h2'
      rcases Option.some_inj.mp h1' with rfl
      rcases Option.some_inj.mp h2' with rfl
      rcases stn2stn_find_bound sc hsc s hs a b q h1 h2 h3 with ⟨g0, T, hfind0, hgT, hT0, hqT⟩
      have hgg : g = g0 := Option.some_inj.mp (hfind.symm.trans hfind0)
      rw [hgg] at htot
      by_cases hT : T = 0
      · refine ⟨0, ?_, le_refl 0⟩
        have hq0 : q = 0 := le_antisymm (hT ▸ hqT) hq
        rw [hdiv, h3, htot, hgT, hq0, hT, FloatVal.div_zero_zero]
        rfl
      · refine ⟨q / T, ?_, div_nonneg hq hT0⟩
        rw [hdiv, h3, htot, hgT, FloatVal.div_fin_fin q T hT]
        rfl
    · refine ⟨0, ?_, le_refl 0⟩
      rw [hdiv, h3, htot]
      rfl

/-- A joined row whose subtotal column is zero or NaN gets exact 0 as its
zero-filled share. -/
theorem joined_share_zero_subtotal (sc : List ScaledRow)
    (hsc : ∀ s ∈ sc,
      (s.from_stn = none ∧ s.to_stn = none ∧ s.demand = FloatVal.nan)
      ∨ (∃ a b q, s.from_stn = some a ∧ s.to_stn = some b
          ∧ s.demand = FloatVal.fin q ∧ 0 ≤ q)) :
    ∀ fr ∈ joinTotalsAndShare sc,
      (fr.stn2stn_total_demand = FloatVal.fin 0 ∨ fr.stn2stn_total_demand = FloatVal.nan)
      → (fr.stn_to_zone).fillna0 = FloatVal.fin 0 := by
  intro fr hfr hyp
  rcases mem_joinTotalsAndShare sc fr hfr with ⟨s, hs, _, _, _, hdiv, hcase⟩
  rcases hsc s hs with ⟨_, _, hn3⟩ | ⟨a, b, q, h1, h2, h3, hq⟩
  · rw [hdiv, hn3, FloatVal.div_nan_left]
    rfl
  · rcases hyp with htot0 | htotn
    · rcases hcase with ⟨a2, b2, g, h1', h2', hfind, htot⟩ | ⟨_, htot⟩
      · rw [h1] at h1'
        rw [h2] at h2'
        rcases Option.some_inj.mp h1' with rfl
        rcases Option.some_inj.mp h2' with rfl
        rcases stn2stn_find_bound sc hsc s hs a b q h1 h2 h3 with
          ⟨g0, T, hfind0, hgT, hT0, hqT⟩
        have hgg : g = g0 := Option.some_inj.mp (hfind.symm.trans hfind0)
        rw [hgg] at htot
        have hTfin : FloatVal.fin T = FloatVal.fin 0 := by
          rw [← hgT, ← htot]
          exact htot0
        have hT : T = 0 := FloatVal.fin.inj hTfin
        have hq0 : q = 0 := le_antisymm (hT ▸ hqT) hq
        rw [hdiv, h3, htot, hgT, hq0, hT, FloatVal.div_zero_zero]
        rfl
      · rw [htot] at htot0
        cases htot0
    · rw [hdiv, h3, htotn, FloatVal.div_nan_right]
      rfl

/-- C9: with the probability rows' station identifiers on the
`1..stations_count` grid and nonnegative demand and split proportions, both
outputs of `zonal_from_to_stations_demand` are free of NaN: every cell of
the returned station matrix is a finite rational; every lookup row's
destination-end share is a finite nonnegative rational, with one lookup row
per merged row (rows are retained, not dropped); and a joined row whose
station-pair subtotal is zero — or NaN, for a row with no matching
probability — carries exact 0 as its zero-filled share. -/
theorem C9_outputs_no_nan (demand_mx : List DemandRow) (irsj_props : List PropRow)
    (stations_count : ℕ) (userclass : ℤ) (to_home : Bool) (model_zones : ℕ)
    (hprops : ∀ pr ∈ irsj_props,
      ((pr.from_stn_zone_id, pr.to_stn_zone_id) : ℤ × ℤ) ∈ gridPairs stations_count)
    (hd : ∀ r ∈ demand_mx, 0 ≤ r.demand)
    (hp : ∀ pr ∈ irsj_props, 0 ≤ pr.proportion) :
    (∀ row ∈ (zonal_from_to_stations_demand demand_mx irsj_props stations_count
        userclass to_home model_zones).1, ∀ v ∈ row, ∃ q, v = FloatVal.fin q)
    ∧ (∀ lr ∈ (zonal_from_to_stations_demand demand_mx irsj_props stations_count
        userclass to_home model_zones).2, ∃ q, lr.stn_to_zone = FloatVal.fin q ∧ 0 ≤ q)
    ∧ ((zonal_from_to_stations_demand demand_mx irsj_props stations_count
        userclass to_home model_zones).2.length
      = (mergeProps (if to_home then transpose_matrix (expand_matrix demand_mx model_zones)
          else expand_matrix demand_mx model_zones) irsj_props userclass).length)
    ∧ (∀ fr ∈ joinTotalsAndShare ((mergeProps
        (if to_home then transpose_matrix (expand_matrix demand_mx model_zones)
          else expand_matrix demand_mx model_zones) irsj_props userclass).map scaleDemand),
      (fr.stn2stn_total_demand = FloatVal.fin 0 ∨ fr.stn2stn_total_demand = FloatVal.nan)
      → (fr.stn_to_zone).fillna0 = FloatVal.fin 0) := by
  cases to_home with
  | false =>
      have hdor : ∀ r ∈ expand_matrix demand_mx model_zones, 0 ≤ r.demand :=
        expand_matrix_nonneg demand_mx model_zones hd
      have hsc := mergeProps_scaled_nonneg (expand_matrix demand_mx model_zones)
        irsj_props userclass hdor hp
      have hshape := mergeProps_scaled_shape (expand_matrix demand_mx model_zones)
        irsj_props userclass stations_count hprops
      unfold zonal_from_to_stations_demand stnMatrixGroups
      dsimp only
      rw [if_neg Bool.false_ne_true]
      refine ⟨?_, ?_, ?_, ?_⟩
      · rw [joinTotals_proj]
        obtain ⟨k1, k2, k3⟩ := kept2_grid _ stations_count hshape
        exact (pivot_complete_grid _ stations_count k1 k2 k3).2.2.1
      · intro lr hlr
        simp only [zonal_from_to_stns_output] at hlr
        rcases List.mem_map.mp hlr with ⟨fr, hfr, rfl⟩
        exact joined_share_fin_nonneg _ hsc fr hfr
      · simp [zonal_from_to_stns_output, joinTotalsAndShare]
      · exact joined_share_zero_subtotal _ hsc
  | true =>
      have hdor : ∀ r ∈ transpose_matrix (expand_matrix demand_mx model_zones),
          0 ≤ r.demand :=
        transpose_matrix_nonneg _ (expand_matrix_nonneg demand_mx model_zones hd)
      have hsc := mergeProps_scaled_nonneg
        (transpose_matrix (expand_matrix demand_mx model_zones))
        irsj_props userclass hdor hp
      have hshape := mergeProps_scaled_shape
        (transpose_matrix (expand_matrix demand_mx model_zones))
        irsj_props userclass stations_count hprops
      unfold zonal_from_to_stations_demand stnMatrixGroups
      dsimp only
      rw [if_pos rfl]
      refine ⟨?_, ?_, ?_, ?_⟩
      · rw [joinTotals_proj]
        obtain ⟨k1, k2, k3⟩ := kept2_grid _ stations_count hshape
        exact (pivot_complete_grid _ stations_count k1 k2 k3).2.2.1
      · intro lr hlr
        simp only [zonal_from_to_stns_output] at hlr
        rcases List.mem_map.mp hlr with ⟨fr, hfr, rfl⟩
        exact joined_share_fin_nonneg _ hsc fr hfr
      · simp [zonal_from_to_stns_output, joinTotalsAndShare]
      · exact joined_share_zero_subtotal _ hsc

theorem C9_outputs_no_nan_witness :
    (∀ pr ∈ [(⟨2, 3, 1, 1, 1, 1⟩ : PropRow)],
      ((pr.from_stn_zone_id, pr.to_stn_zone_id) : ℤ × ℤ) ∈ gridPairs 1)
    ∧ (∀ r ∈ [(⟨2, 3, 7⟩ : DemandRow)], 0 ≤ r.demand)
    ∧ (∀ pr ∈ [(⟨2, 3, 1, 1, 1, 1⟩ : PropRow)], 0 ≤ pr.proportion)
    ∧ ((∀ row ∈ (zonal_from_to_stations_demand [(⟨2, 3, 7⟩ : DemandRow)]
        [(⟨2, 3, 1, 1, 1, 1⟩ : PropRow)] 1 1 false 2).1, ∀ v ∈ row, ∃ q, v = FloatVal.fin q)
      ∧ (∀ lr ∈ (zonal_from_to_stations_demand [(⟨2, 3, 7⟩ : DemandRow)]
          [(⟨2, 3, 1, 1, 1, 1⟩ : PropRow)] 1 1 false 2).2,
        ∃ q, lr.stn_to_zone = FloatVal.fin q ∧ 0 ≤ q)
      ∧ ((zonal_from_to_stations_demand [(⟨2, 3, 7⟩ : DemandRow)]
          [(⟨2, 3, 1, 1, 1, 1⟩ : PropRow)] 1 1 false 2).2.length
        = (mergeProps (if false then transpose_matrix (expand_matrix
              [(⟨2, 3, 7⟩ : DemandRow)] 2)
            else expand_matrix [(⟨2, 3, 7⟩ : DemandRow)] 2)
            [(⟨2, 3, 1, 1, 1, 1⟩ : PropRow)] 1).length)
      ∧ (∀ fr ∈ joinTotalsAndShare ((mergeProps
          (if false then transpose_matrix (expand_matrix [(⟨2, 3, 7⟩ : DemandRow)] 2)
            else expand_matrix [(⟨2, 3, 7⟩ : DemandRow)] 2)
          [(⟨2, 3, 1, 1, 1, 1⟩ : PropRow)] 1).map scaleDemand),
        (fr.stn2stn_total_demand = FloatVal.fin 0 ∨ fr.stn2stn_total_demand = FloatVal.nan)
        → (fr.stn_to_zone).fillna0 = FloatVal.fin 0)) := by
  have h1 : ∀ pr ∈ [(⟨2, 3, 1, 1, 1, 1⟩ : PropRow)],
      ((pr.from_stn_zone_id, pr.to_stn_zone_id) : ℤ × ℤ) ∈ gridPairs 1 := by
    intro pr hpr
    rcases List.mem_singleton.mp hpr with rfl
    decide
  have h2 : ∀ r ∈ [(⟨2, 3, 7⟩ : DemandRow)], 0 ≤ r.demand := by
    intro r hr
    rcases List.mem_singleton.mp hr with rfl
    show (0 : ℚ) ≤ 7
    norm_num
  have h3 : ∀ pr ∈ [(⟨2, 3, 1, 1, 1, 1⟩ : PropRow)], 0 ≤ pr.proportion := by
    intro pr hpr
    rcases List.mem_singleton.mp hpr with rfl
    show (0 : ℚ) ≤ 1
    norm_num
  exact ⟨h1, h2, h3, C9_outputs_no_nan [(⟨2, 3, 7⟩ : DemandRow)]
    [(⟨2, 3, 1, 1, 1, 1⟩ : PropRow)] 1 1 false 2 h1 h2 h3⟩

/-- C3: the coverage gap is computed but never surfaced.  At this input the
zone pair (1, 2) has demand 10 and no probability row: lines 310-313 do
identify it (`missing_props` of the merged frame is exactly [(1, 2)]), but
the source assigns that frame to a local variable that is never returned,
logged or otherwise used, and `zonal_from_to_stations_demand` silently
returns an all-zero station matrix — the demand is dropped with no report
to the caller, contradicting the claimed surfacing. -/
theorem C3_missing_props_dead :
    missing_props (mergeProps (expand_matrix [(⟨1, 2, 10⟩ : DemandRow)] 2) [] 1)
      = [((1 : ℤ), (2 : ℤ))]
    ∧ floatTotal (zonal_from_to_stations_demand [(⟨1, 2, 10⟩ : DemandRow)] [] 2 1 false 2).1
      = FloatVal.fin 0 := by
  constructor
  · rfl
  · have hstep : (zonal_from_to_stations_demand [(⟨1, 2, 10⟩ : DemandRow)] [] 2 1 false 2).1
        = long_mx_2_wide_mx
          [((1 : ℤ), (1 : ℤ), FloatVal.fin (0 + 0)), ((1 : ℤ), (2 : ℤ), FloatVal.fin (0 + 0)),
            ((2 : ℤ), (1 : ℤ), FloatVal.fin (0 + 0)),
            ((2 : ℤ), (2 : ℤ), FloatVal.fin (0 + 0))] := rfl
    have k1 : ∀ t ∈ [((1 : ℤ), (1 : ℤ), FloatVal.fin ((0 : ℚ) + 0)),
        ((1 : ℤ), (2 : ℤ), FloatVal.fin (0 + 0)), ((2 : ℤ), (1 : ℤ), FloatVal.fin (0 + 0)),
        ((2 : ℤ), (2 : ℤ), FloatVal.fin (0 + 0))],
        ((t.1, t.2.1) : ℤ × ℤ) ∈ gridPairs 2 := by
      intro t ht
      rcases List.mem_cons.mp ht with rfl | ht
      · decide
      rcases List.mem_cons.mp ht with rfl | ht
      · decide
      rcases List.mem_cons.mp ht with rfl | ht
      · decide
      rcases List.mem_cons.mp ht with rfl | ht
      · decide
      cases ht
    have k2 : ∀ p ∈ gridPairs 2, ∃ t ∈ [((1 : ℤ), (1 : ℤ), FloatVal.fin ((0 : ℚ) + 0)),
        ((1 : ℤ), (2 : ℤ), FloatVal.fin (0 + 0)), ((2 : ℤ), (1 : ℤ), FloatVal.fin (0 + 0)),
        ((2 : ℤ), (2 : ℤ), FloatVal.fin (0 + 0))], t.1 = p.1 ∧ t.2.1 = p.2 := by
      intro p hp
      have hg : gridPairs 2 = [((1 : ℤ), (1 : ℤ)), (1, 2), (2, 1), (2, 2)] := rfl
      rw [hg] at hp
      rcases List.mem_cons.mp hp with rfl | hp
      · exact ⟨(1, 1, FloatVal.fin (0 + 0)), by simp, rfl, rfl⟩
      rcases List.mem_cons.mp hp with rfl | hp
      · exact ⟨(1, 2, FloatVal.fin (0 + 0)), by simp, rfl, rfl⟩
      rcases List.mem_cons.mp hp with rfl | hp
      · exact ⟨(2, 1, FloatVal.fin (0 + 0)), by simp, rfl, rfl⟩
      rcases List.mem_cons.mp hp with rfl | hp
      · exact ⟨(2, 2, FloatVal.fin (0 + 0)), by simp, rfl, rfl⟩
      cases hp
    have k3 : ∀ t ∈ [((1 : ℤ), (1 : ℤ), FloatVal.fin ((0 : ℚ) + 0)),
        ((1 : ℤ), (2 : ℤ), FloatVal.fin (0 + 0)), ((2 : ℤ), (1 : ℤ), FloatVal.fin (0 + 0)),
        ((2 : ℤ), (2 : ℤ), FloatVal.fin (0 + 0))], ∃ q, t.2.2 = FloatVal.fin q := by
      intro t ht
      rcases List.mem_cons.mp ht with rfl | ht
      · exact ⟨0 + 0, rfl⟩
      rcases List.mem_cons.mp ht with rfl | ht
      · exact ⟨0 + 0, rfl⟩
      rcases List.mem_cons.mp ht with rfl | ht
      · exact ⟨0 + 0, rfl⟩
      rcases List.mem_cons.mp ht with rfl | ht
      · exact ⟨0 + 0, rfl⟩
      cases ht
    have hzero : ∀ t ∈ [((1 : ℤ), (1 : ℤ), FloatVal.fin ((0 : ℚ) + 0)),
        ((1 : ℤ), (2 : ℤ), FloatVal.fin (0 + 0)), ((2 : ℤ), (1 : ℤ), FloatVal.fin (0 + 0)),
        ((2 : ℤ), (2 : ℤ), FloatVal.fin (0 + 0))], t.2.2 = FloatVal.fin 0 := by
      intro t ht
      have h00 : ((0 : ℚ) + 0) = 0 := by norm_num
      rcases List.mem_cons.mp ht with rfl | ht
      · show FloatVal.fin ((0 : ℚ) + 0) = FloatVal.fin 0
        rw [h00]
      rcases List.mem_cons.mp ht with rfl | ht
      · show FloatVal.fin ((0 : ℚ) + 0) = FloatVal.fin 0
        rw [h00]
      rcases List.mem_cons.mp ht with rfl | ht
      · show FloatVal.fin ((0 : ℚ) + 0) = FloatVal.fin 0
        rw [h00]
      rcases List.mem_cons.mp ht with rfl | ht
      · show FloatVal.fin ((0 : ℚ) + 0) = FloatVal.fin 0
        rw [h00]
      cases ht
    have hall := (pivot_complete_grid _ 2 k1 k2 k3).2.2.2 hzero
    rw [hstep, hall]
    have hrep : floatTotal (List.replicate 2 (List.replicate 2 (FloatVal.fin 0)))
        = FloatVal.fin ((0 : ℚ) + 0 + 0 + 0 + 0) := rfl
    rw [hrep]
    norm_num
